import Mathlib

/-!
Polyline-to-mesh geometry builder (`MathsUtils`)

A shallow embedding of `Base/src/maths_utils.cpp` (`duplicate`, `createIndices`,
`relative`, `clamp`) and of the draw count computed in `attribute/src/main.cpp`.

Conventions of the embedding:

* `std::vector<T>` is a `List`; the scalar type `float` is a parameter `α`: the
  functions only copy coordinates, and the three literals they use (`0`, `1`, `-1`)
  come from `Zero α`, `One α`, `Neg α`.
* `operator[]` outside the bounds of a vector is undefined behaviour; the embedding
  returns `none` there, so every function returns an `Option`.
* `int` values are mathematical integers; an `int` operation on caller-supplied
  operands whose exact result leaves `[INT_MIN, INT_MAX]` is undefined behaviour
  and returns `none`. Storing into a `uint16_t` reduces modulo `65536`.
* A `for (int i = 0; i < v.size(); i++)` loop is a recursion on the number of
  iterations left, carrying the counter `i`; the size of a vector is a natural
  number and is taken to fit the counter.
-/

namespace MathsUtils

/-- Largest value of a 32-bit `int`. -/
def INT_MAX : Int := 2147483647

/-- Smallest value of a 32-bit `int`. -/
def INT_MIN : Int := -2147483648

/-- Addition of two `int`s: `none` when the exact sum is not representable. -/
def addInt (a b : Int) : Option Int :=
  if INT_MIN ≤ a + b ∧ a + b ≤ INT_MAX then some (a + b) else none

/-- Multiplication of two `int`s: `none` when the exact product is not representable. -/
def mulInt (a b : Int) : Option Int :=
  if INT_MIN ≤ a * b ∧ a * b ≤ INT_MAX then some (a * b) else none

/-- Conversion of an `int` to `uint16_t`. -/
def toUint16 (v : Int) : Nat := (v % 65536).toNat

/-- Conversion of an integer to a 32-bit `int` (two's complement wrap-around). -/
def toInt32 (v : Int) : Int := (v + 2147483648) % 4294967296 - 2147483648

/-- The method `std::vector::push_back`. -/
def push_back {α : Type} (v : List α) (x : α) : List α := v ++ [x]

/-- The read `array[i][k]` of a vector of vectors, with an unsigned row index. -/
def at2 {α : Type} (array : List (List α)) (i k : Nat) : Option α :=
  match array[i]? with
  | none => none
  | some row => row[k]?

/-- The read `array[index][k]` with an `int` row index: a negative index converts to
a `size_t` beyond every size. -/
def at2i {α : Type} (array : List (List α)) (index : Int) (k : Nat) : Option α :=
  if index < 0 then none else at2 array index.toNat k

/-- The write `result[i][k] = v` into a vector of vectors. -/
def write2 {α : Type} (result : List (List α)) (i k : Nat) (v : α) : Option (List (List α)) :=
  match result[i]? with
  | none => none
  | some row => if k < row.length then some (result.set i (row.set k v)) else none

/-- The write `indices[c] = v` into a vector of `uint16_t`. -/
def store16 (indices : List Nat) (c : Nat) (v : Int) : Option (List Nat) :=
  if c < indices.length then some (indices.set c (toUint16 v)) else none

/-- The function `MathsUtils::clamp`. -/
def clamp (value begin_ end_ : Int) : Int :=
  if value > end_ then end_
  else if value < begin_ then begin_
  else value

/-- The `mirror` loop of `MathsUtils::duplicate`: `k` iterations left. -/
def duplicateMirrorLoop {α : Type} [One α] [Neg α] : Nat → List α → List α
  | 0, result => result
  | k + 1, result =>
    let result := push_back result (-1)
    let result := push_back result 1
    duplicateMirrorLoop k result

/-- The non-`mirror` loop of `MathsUtils::duplicate`: `k` iterations left, counter `i`. -/
def duplicateLoop {α : Type} (array : List (List α)) : Nat → Nat → List α → Option (List α)
  | 0, _, result => some result
  | k + 1, i, result => do
    let result := push_back result (← at2 array i 0)
    let result := push_back result (← at2 array i 1)
    let result := push_back result (← at2 array i 2)
    let result := push_back result (← at2 array i 0)
    let result := push_back result (← at2 array i 1)
    let result := push_back result (← at2 array i 2)
    duplicateLoop array k (i + 1) result

/-- The function `MathsUtils::duplicate`. -/
def duplicate {α : Type} [One α] [Neg α] (array : List (List α)) (mirror : Bool) :
    Option (List α) :=
  if mirror then some (duplicateMirrorLoop array.length [])
  else duplicateLoop array array.length 0 []

/-- The loop of `MathsUtils::createIndices`: `k` iterations left, with the running
write position `c` and base vertex `index`. Once `length * 6` is representable, `c`,
`index` and `i + 3` stay below it, so these additions are exact. -/
def createIndicesLoop : Nat → Nat → Int → List Nat → Option (List Nat)
  | 0, _, _, indices => some indices
  | k + 1, c, index, indices => do
    let i := index
    let indices ← store16 indices c (i + 0)
    let indices ← store16 indices (c + 1) (i + 1)
    let indices ← store16 indices (c + 2) (i + 2)
    let indices ← store16 indices (c + 3) (i + 2)
    let indices ← store16 indices (c + 4) (i + 1)
    let indices ← store16 indices (c + 5) (i + 3)
    createIndicesLoop k (c + 6) (index + 2) indices

/-- The value added to the base vertex `i` by the `d`-th of the six stores of one
iteration of the loop of `MathsUtils::createIndices`: `i+0, i+1, i+2, i+2, i+1, i+3`. -/
def quadOffset : Nat → Int
  | 0 => 0
  | 1 => 1
  | 2 => 2
  | 3 => 2
  | 4 => 1
  | _ => 3

/-- The function `MathsUtils::createIndices`. The vector is created with
`length * 6` zeroes; a negative size makes the constructor throw. -/
def createIndices (length : Int) : Option (List Nat) := do
  let size ← mulInt length 6
  if size < 0 then none
  else createIndicesLoop length.toNat 0 0 (List.replicate size.toNat 0)

/-- The loop of `MathsUtils::relative`: `k` iterations left, counter `i`. The bound
`array.size() - 1`, converted to `int`, is `size - 1` (`-1` for an empty vector). -/
def relativeLoop {α : Type} (array : List (List α)) (offset : Int) :
    Nat → Nat → List (List α) → Option (List (List α))
  | 0, _, result => some result
  | k + 1, i, result => do
    let index := clamp (← addInt i offset) 0 ((array.length : Int) - 1)
    let result ← write2 result i 0 (← at2i array index 0)
    let result ← write2 result i 1 (← at2i array index 1)
    let result ← write2 result i 2 (← at2i array index 2)
    relativeLoop array offset k (i + 1) result

/-- The function `MathsUtils::relative`. -/
def relative {α : Type} [Zero α] (array : List (List α)) (offset : Int) :
    Option (List (List α)) :=
  relativeLoop array offset array.length 0 (List.replicate array.length (List.replicate 3 0))

/-- The draw count of `main`: `int count = (path.size()-1) * 6;`, computed in
unsigned 64-bit arithmetic and converted to `int`. -/
def drawCount (pathSize : Nat) : Int :=
  toInt32 ((((pathSize : Int) - 1) % 18446744073709551616 * 6) % 18446744073709551616)

/-- The path built in `main` of the `attribute` program. -/
def samplePath : List (List ℚ) :=
  [[0, -1, 0], [1, -1, 0], [0, 0, 0], [1, 0, 0], [0.25, -0.75, 0]]


end MathsUtils

/-! The window set-up of `attribute/src/main.cpp` and `uniformblock/src/main.cpp`
(the two files have the same `quitCallback`, `reloadShaders` and `initializeWindow`).
GLFW keeps one key callback per window; `glfwSetKeyCallback` replaces it. -/

namespace Harness

/-- The GLFW key code of the Escape key. -/
def GLFW_KEY_ESCAPE : Int := 256

/-- The GLFW key code of the `R` key. -/
def GLFW_KEY_R : Int := 82

/-- The GLFW action code of a key press. -/
def GLFW_PRESS : Int := 1

/-- The two functions of `main.cpp` that are registered as key callbacks. -/
inductive KeyCallback where
  | quit
  | reload
  deriving DecidableEq

/-- What the callbacks can change: the key-callback slot and the should-close flag of
the GLFW window, and the number of calls of `loadShaderProgram(true)` (which touches the
shader program only). -/
structure Window where
  keyCallback : Option KeyCallback
  shouldClose : Bool
  shaderReloads : Nat

/-- The function `quitCallback`. -/
def quitCallback (window : Window) (key action : Int) : Window :=
  if key = GLFW_KEY_ESCAPE ∧ action = GLFW_PRESS then { window with shouldClose := true }
  else window

/-- The function `reloadShaders`. -/
def reloadShaders (window : Window) (key action : Int) : Window :=
  if key = GLFW_KEY_R ∧ action = GLFW_PRESS then
    { window with shaderReloads := window.shaderReloads + 1 }
  else window

/-- The GLFW function `glfwSetKeyCallback`: the new callback replaces the one set
before. -/
def glfwSetKeyCallback (window : Window) (callback : KeyCallback) : Window :=
  { window with keyCallback := some callback }

/-- A window as `glfwCreateWindow` returns it: no key callback, should-close flag off. -/
def createdWindow : Window :=
  { keyCallback := none, shouldClose := false, shaderReloads := 0 }

/-- The function `initializeWindow`; `created` tells whether `glfwCreateWindow` returned
a window (`none` is the `NULL` result). -/
def initializeWindow (created : Bool) : Option Window :=
  if !created then none
  else
    let window := createdWindow
    let window := glfwSetKeyCallback window KeyCallback.quit
    let window := glfwSetKeyCallback window KeyCallback.reload
    some window

/-- The delivery of a key event by GLFW: the registered key callback of the window, if
any, is called with the key and the action. -/
def keyEvent (window : Window) (key action : Int) : Window :=
  match window.keyCallback with
  | none => window
  | some KeyCallback.quit => quitCallback window key action
  | some KeyCallback.reload => reloadShaders window key action

end Harness

namespace MathsUtils

/-! ## Reading vectors of points -/

theorem at2_of_getElem? {α : Type} {array : List (List α)} {i : Nat} {row : List α}
    (h : array[i]? = some row) (k : Nat) : at2 array i k = row[k]? := by
  simp [at2, h]

theorem exists_three {α : Type} {row : List α} (h : 3 ≤ row.length) :
    ∃ x y z rest, row = x :: y :: z :: rest := by
  match row, h with
  | x :: y :: z :: rest, _ => exact ⟨x, y, z, rest, rfl⟩

/-! ## `duplicate` -/

theorem duplicateMirrorLoop_length {α : Type} [One α] [Neg α] :
    ∀ (k : Nat) (result : List α),
      (duplicateMirrorLoop k result).length = result.length + 2 * k
  | 0, result => by simp [duplicateMirrorLoop]
  | k + 1, result => by
    simp only [duplicateMirrorLoop, push_back]
    rw [duplicateMirrorLoop_length k]
    simp only [List.length_append, List.length_singleton]
    omega

theorem duplicateMirrorLoop_getElem? {α : Type} [One α] [Neg α] :
    ∀ (k : Nat) (result : List α) (p : Nat),
      (duplicateMirrorLoop k result)[p]? =
        if p < result.length then result[p]?
        else if p < result.length + 2 * k then
          some (if (p - result.length) % 2 = 0 then (-1 : α) else 1)
        else none
  | 0, result, p => by
    simp only [duplicateMirrorLoop]
    split
    · rfl
    · rw [if_neg (by omega)]
      exact List.getElem?_eq_none (by omega)
  | k + 1, result, p => by
    simp only [duplicateMirrorLoop, push_back]
    rw [duplicateMirrorLoop_getElem? k]
    simp only [List.length_append, List.length_singleton, List.append_assoc,
      List.singleton_append]
    have h2len : ([-1, 1] : List α).length = 2 := rfl
    by_cases h1 : p < result.length
    · rw [if_pos (by omega), if_pos h1, List.getElem?_append_left h1]
    · rw [if_neg h1]
      by_cases h2 : p < result.length + 2
      · rw [if_pos (by omega), if_pos (by omega),
          List.getElem?_append_right (by omega)]
        obtain h | h : p - result.length = 0 ∨ p - result.length = 1 := by omega
        · simp [h]
        · simp [h]
      · rw [if_neg (by omega)]
        by_cases h3 : p < result.length + 2 * (k + 1)
        · rw [if_pos (by omega), if_pos h3]
          have : (p - (result.length + 1 + 1)) % 2 = (p - result.length) % 2 := by omega
          simp only [List.length_cons, List.length_nil, Nat.zero_add, this]
        · rw [if_neg (by omega), if_neg h3]

theorem duplicateLoop_spec {α : Type} (array : List (List α))
    (h3 : ∀ row ∈ array, 3 ≤ row.length) :
    ∀ (k i : Nat) (result : List α), i + k = array.length → result.length = 6 * i →
      ∃ l, duplicateLoop array k i result = some l ∧ l.length = 6 * (i + k) ∧
        (∀ p, p < 6 * i → l[p]? = result[p]?) ∧
        (∀ j c row, i ≤ j → array[j]? = some row → c < 6 → l[6 * j + c]? = row[c % 3]?)
  | 0, i, result, hk, hlen => by
    refine ⟨result, rfl, by simpa using hlen, fun _ _ => rfl, ?_⟩
    intro j c row hij hrow _
    have : j < array.length := (List.getElem?_eq_some_iff.mp hrow).1
    omega
  | k + 1, i, result, hk, hlen => by
    have hi : i < array.length := by omega
    have hrow : array[i]? = some array[i] := List.getElem?_eq_getElem hi
    obtain ⟨x, y, z, rest, hxyz⟩ := exists_three (h3 _ (List.getElem_mem hi))
    rw [hxyz] at hrow
    obtain ⟨l, hl, hlen', hold, hnew⟩ :=
      duplicateLoop_spec array h3 k (i + 1) (result ++ [x, y, z, x, y, z]) (by omega)
        (by simp only [List.length_append, List.length_cons, List.length_nil]; omega)
    refine ⟨l, ?_, by rw [hlen']; congr 1; omega, ?_, ?_⟩
    · simp only [duplicateLoop, at2_of_getElem? hrow, push_back, List.getElem?_cons_zero,
        List.getElem?_cons_succ, Option.pure_def, Option.bind_eq_bind, Option.some_bind,
        List.append_assoc, List.singleton_append]
      exact hl
    · intro p hp
      rw [hold p (by omega), List.getElem?_append_left (by omega)]
    · intro j c row hij hj hc
      by_cases hji : j = i
      · subst hji
        rw [hrow] at hj
        cases hj
        rw [hold _ (by omega), List.getElem?_append_right (by omega)]
        have : 6 * j + c - result.length = c := by omega
        rw [this]
        interval_cases c <;> simp
      · exact hnew j c row (by omega) hj hc

theorem duplicate_false_core {α : Type} [One α] [Neg α] (path : List (List α))
    (h3 : ∀ row ∈ path, 3 ≤ row.length) :
    ∃ l, duplicate path false = some l ∧ l.length = 6 * path.length ∧
      ∀ i k row, path[i]? = some row → k < 6 → l[6 * i + k]? = row[k % 3]? := by
  obtain ⟨l, hl, hlen, -, hnew⟩ := duplicateLoop_spec path h3 path.length 0 [] (by simp) rfl
  exact ⟨l, by simpa [duplicate] using hl, by simpa using hlen,
    fun i k row hrow hk => hnew i k row (Nat.zero_le _) hrow hk⟩

/-- C1: for a path of `N` points with at least three coordinates each,
`duplicate(path, false)` returns a list of length `6N` whose element at position
`6i + k` (`i < N`, `k < 6`) is coordinate `k mod 3` of `path[i]`. -/
theorem duplicate_false_spec {α : Type} [One α] [Neg α] (path : List (List α))
    (h3 : ∀ row ∈ path, 3 ≤ row.length) :
    ∃ l, duplicate path false = some l ∧ l.length = 6 * path.length ∧
      ∀ i k, i < path.length → k < 6 →
        ∃ row x, path[i]? = some row ∧ row[k % 3]? = some x ∧ l[6 * i + k]? = some x := by
  obtain ⟨l, hl, hlen, hnew⟩ := duplicate_false_core path h3
  refine ⟨l, hl, hlen, ?_⟩
  intro i k hi hk
  have hrow : path[i]? = some path[i] := List.getElem?_eq_getElem hi
  have hlt : k % 3 < (path[i]).length := by
    have := h3 _ (List.getElem_mem hi)
    omega
  exact ⟨path[i], (path[i])[k % 3], hrow, List.getElem?_eq_getElem hlt,
    by rw [hnew i k _ hrow hk, List.getElem?_eq_getElem hlt]⟩

/-- Witness for C1 on a two-point path whose second point has four coordinates. -/
theorem duplicate_false_spec_witness :
    ∃ l, duplicate [[1, 2, 3], [4, 5, 6, 7]] false = some l ∧
      l.length = 6 * [[1, 2, 3], [4, 5, 6, (7 : Int)]].length ∧
      ∀ i k, i < [[1, 2, 3], [4, 5, 6, (7 : Int)]].length → k < 6 →
        ∃ row x, [[1, 2, 3], [4, 5, 6, (7 : Int)]][i]? = some row ∧ row[k % 3]? = some x ∧
          l[6 * i + k]? = some x :=
  duplicate_false_spec [[1, 2, 3], [4, 5, 6, 7]] (by decide)

/-- C2: `duplicate(path, true)` has length `2N`, holds `-1` at every even position
and `1` at every odd one, and is the same for any two paths of equal length. -/
theorem duplicate_true_spec {α : Type} [One α] [Neg α] (path : List (List α)) :
    ∃ l, duplicate path true = some l ∧ l.length = 2 * path.length ∧
      (∀ p, p < 2 * path.length → l[p]? = some (if p % 2 = 0 then (-1 : α) else 1)) ∧
      ∀ other : List (List α), other.length = path.length →
        duplicate other true = duplicate path true := by
  refine ⟨duplicateMirrorLoop path.length [], by simp [duplicate], ?_, ?_, ?_⟩
  · simp [duplicateMirrorLoop_length]
  · intro p hp
    rw [duplicateMirrorLoop_getElem?]
    simp [hp]
  · intro other h
    simp [duplicate, h]

/-! ## `clamp` and `relative` -/

theorem clamp_bounds (value end_ : Int) (h : 0 ≤ end_) :
    0 ≤ clamp value 0 end_ ∧ clamp value 0 end_ ≤ end_ := by
  unfold clamp
  split_ifs <;> omega

theorem addInt_of_bounds {a b : Int} (h : INT_MIN ≤ a + b ∧ a + b ≤ INT_MAX) :
    addInt a b = some (a + b) := by
  simp [addInt, h]

theorem at2i_of_getElem? {α : Type} {array : List (List α)} {index : Int} {row : List α}
    (h0 : 0 ≤ index) (h : array[index.toNat]? = some row) (k : Nat) :
    at2i array index k = row[k]? := by
  simp [at2i, not_lt.mpr h0, at2_of_getElem? h]

theorem write2_of_getElem? {α : Type} {result : List (List α)} {i k : Nat} {row : List α}
    (h : result[i]? = some row) (hk : k < row.length) (v : α) :
    write2 result i k v = some (result.set i (row.set k v)) := by
  simp [write2, h, hk]

theorem write2_row {α : Type} {result : List (List α)} {i : Nat} {a b c : α}
    (h : result[i]? = some [a, b, c]) (x y z : α) :
    ((write2 result i 0 x).bind fun r1 => (write2 r1 i 1 y).bind fun r2 => write2 r2 i 2 z)
      = some (result.set i [x, y, z]) := by
  have hi : i < result.length := (List.getElem?_eq_some_iff.mp h).1
  rw [write2_of_getElem? h (by simp), Option.some_bind,
    @write2_of_getElem? _ _ _ _ [x, b, c] (by simp [hi]) (by simp), Option.some_bind,
    @write2_of_getElem? _ _ _ _ [x, y, c] (by simp [hi]) (by simp)]
  simp

theorem relativeLoop_spec {α : Type} (array : List (List α)) (offset : Int)
    (h3 : ∀ row ∈ array, 3 ≤ row.length)
    (hov : ∀ i : Nat, i < array.length →
      INT_MIN ≤ (i : Int) + offset ∧ (i : Int) + offset ≤ INT_MAX) :
    ∀ (k i : Nat) (result : List (List α)), i + k = array.length →
      result.length = array.length →
      (∀ j, i ≤ j → j < array.length → ∃ row, result[j]? = some row ∧ row.length = 3) →
      ∃ r, relativeLoop array offset k i result = some r ∧ r.length = array.length ∧
        (∀ j, j < i → r[j]? = result[j]?) ∧
        (∀ j, i ≤ j → j < array.length →
          ∃ src, array[(clamp ((j : Int) + offset) 0 ((array.length : Int) - 1)).toNat]? = some src ∧
            r[j]? = some (src.take 3))
  | 0, i, result, hk, hlen, _ => by
    refine ⟨result, rfl, hlen, fun _ _ => rfl, ?_⟩
    intro j hij hj
    omega
  | k + 1, i, result, hk, hlen, hrows => by
    have hi : i < array.length := by omega
    obtain ⟨hc0, hc1⟩ := clamp_bounds ((i : Int) + offset) ((array.length : Int) - 1) (by omega)
    have hidx : (clamp ((i : Int) + offset) 0 ((array.length : Int) - 1)).toNat < array.length := by
      omega
    have hsrc := List.getElem?_eq_getElem hidx
    obtain ⟨x, y, z, rest, hxyz⟩ := exists_three (h3 _ (List.getElem_mem hidx))
    rw [hxyz] at hsrc
    obtain ⟨row, hrow, hrowlen⟩ := hrows i (Nat.le_refl _) hi
    obtain ⟨a, b, c, hrow3⟩ : ∃ a b c, row = [a, b, c] := by
      match row, hrowlen with
      | [a, b, c], _ => exact ⟨a, b, c, rfl⟩
    rw [hrow3] at hrow
    obtain ⟨r, hr, hrlen, hold, hnew⟩ :=
      relativeLoop_spec array offset h3 hov k (i + 1) (result.set i [x, y, z]) (by omega)
        (by simpa using hlen)
        (by
          intro j hij hj
          obtain ⟨row', h1, h2⟩ := hrows j (by omega) hj
          exact ⟨row', by rw [List.getElem?_set_ne (by omega)]; exact h1, h2⟩)
    refine ⟨r, ?_, hrlen, ?_, ?_⟩
    · have hw := write2_row hrow x y z
      simp only [relativeLoop, addInt_of_bounds (hov i hi), at2i_of_getElem? hc0 hsrc,
        List.getElem?_cons_zero, List.getElem?_cons_succ, Option.pure_def,
        Option.bind_eq_bind, Option.some_bind] at hw ⊢
      rw [← hr]
      cases h1 : write2 result i 0 x with
      | none => simp [h1] at hw
      | some r1 =>
        simp only [h1, Option.some_bind] at hw ⊢
        cases h2 : write2 r1 i 1 y with
        | none => simp [h2] at hw
        | some r2 =>
          simp only [h2, Option.some_bind] at hw ⊢
          rw [hw, Option.some_bind]
    · intro j hj
      rw [hold j (by omega), List.getElem?_set_ne (by omega)]
    · intro j hij hj
      by_cases hji : j = i
      · subst hji
        refine ⟨_, hsrc, ?_⟩
        rw [hold j (by omega), List.getElem?_set_self (by omega)]
        rfl
      · exact hnew j (by omega) hj

theorem relative_core {α : Type} [Zero α] (path : List (List α)) (offset : Int)
    (h3 : ∀ row ∈ path, 3 ≤ row.length)
    (hov : ∀ i : Nat, i < path.length →
      INT_MIN ≤ (i : Int) + offset ∧ (i : Int) + offset ≤ INT_MAX) :
    ∃ r, relative path offset = some r ∧ r.length = path.length ∧
      ∀ i, i < path.length →
        ∃ src, path[(clamp ((i : Int) + offset) 0 ((path.length : Int) - 1)).toNat]? = some src ∧
          3 ≤ src.length ∧ r[i]? = some (src.take 3) := by
  obtain ⟨r, hr, hlen, -, hnew⟩ := relativeLoop_spec path offset h3 hov path.length 0
    (List.replicate path.length (List.replicate 3 0)) (by simp) (by simp)
    (by
      intro j _ hj
      exact ⟨List.replicate 3 0, by simp [hj], by simp⟩)
  refine ⟨r, hr, hlen, fun i hi => ?_⟩
  obtain ⟨src, h1, h2⟩ := hnew i (Nat.zero_le _) hi
  exact ⟨src, h1, h3 _ (List.getElem?_mem h1), h2⟩

theorem take_three_of_length {α : Type} {row : List α} (h : row.length = 3) :
    row.take 3 = row := by
  rw [← h]
  exact List.take_length row

theorem relative_unit {α : Type} [Zero α] (path : List (List α)) (offset : Int)
    (h3 : ∀ row ∈ path, row.length = 3) (hmax : (path.length : Int) ≤ INT_MAX)
    (hoff : -1 ≤ offset ∧ offset ≤ 1) :
    ∃ r, relative path offset = some r ∧ r.length = path.length ∧
      ∀ i, i < path.length →
        r[i]? = path[(clamp ((i : Int) + offset) 0 ((path.length : Int) - 1)).toNat]? := by
  have hmax' : (path.length : Int) ≤ 2147483647 := hmax
  obtain ⟨r, hr, hlen, hget⟩ := relative_core path offset
    (fun row hrow => by rw [h3 row hrow])
    (fun i hi => by
      simp only [INT_MIN, INT_MAX]
      omega)
  refine ⟨r, hr, hlen, fun i hi => ?_⟩
  obtain ⟨src, h1, -, h2⟩ := hget i hi
  rw [h2, h1, take_three_of_length (h3 _ (List.getElem?_mem h1))]

/-- C3: for a path of `N ≥ 1` points with at least three coordinates each and an offset
for which no `i + offset` (`i < N`) overflows `int`, `relative(path, offset)` returns
exactly `N` points of exactly three coordinates, the `i`-th being the first three
coordinates of `path[clamp(i + offset, 0, N-1)]`. -/
theorem relative_spec {α : Type} [Zero α] (path : List (List α)) (offset : Int)
    (hN : 1 ≤ path.length) (h3 : ∀ row ∈ path, 3 ≤ row.length)
    (hov : ∀ i : Nat, i < path.length →
      INT_MIN ≤ (i : Int) + offset ∧ (i : Int) + offset ≤ INT_MAX) :
    ∃ r, relative path offset = some r ∧ r.length = path.length ∧ 1 ≤ r.length ∧
      (∀ row ∈ r, row.length = 3) ∧
      ∀ i, i < path.length →
        ∃ src, path[(clamp ((i : Int) + offset) 0 ((path.length : Int) - 1)).toNat]? = some src ∧
          r[i]? = some (src.take 3) := by
  obtain ⟨r, hr, hlen, hget⟩ := relative_core path offset h3 hov
  refine ⟨r, hr, hlen, by omega, ?_, ?_⟩
  · intro row hrow
    obtain ⟨i, hi⟩ := List.mem_iff_getElem?.mp hrow
    have hilt : i < path.length := by
      rw [← hlen]
      exact (List.getElem?_eq_some_iff.mp hi).1
    obtain ⟨src, -, hsrc, h2⟩ := hget i hilt
    rw [hi] at h2
    cases h2
    simp only [List.length_take]
    omega
  · intro i hi
    obtain ⟨src, h1, -, h2⟩ := hget i hi
    exact ⟨src, h1, h2⟩

/-- Witness for C3 on a three-point path with offset `-1`. -/
theorem relative_spec_witness :
    ∃ r, relative [[1, 2, 3], [4, 5, 6, 7], [7, 8, (9 : Int)]] (-1) = some r ∧
      r.length = [[1, 2, 3], [4, 5, 6, 7], [7, 8, (9 : Int)]].length ∧ 1 ≤ r.length ∧
      (∀ row ∈ r, row.length = 3) ∧
      ∀ i, i < [[1, 2, 3], [4, 5, 6, 7], [7, 8, (9 : Int)]].length →
        ∃ src, [[1, 2, 3], [4, 5, 6, 7], [7, 8, (9 : Int)]][(clamp ((i : Int) + (-1)) 0
            (([[1, 2, 3], [4, 5, 6, 7], [7, 8, (9 : Int)]].length : Int) - 1)).toNat]? = some src ∧
          r[i]? = some (src.take 3) :=
  relative_spec [[1, 2, 3], [4, 5, 6, 7], [7, 8, 9]] (-1) (by decide) (by decide)
    (by
      intro i hi
      simp only [List.length_cons, List.length_nil, INT_MIN, INT_MAX] at *
      omega)

/-- C4: for a path of `N ≥ 1` three-component points (`N` within the range of the `int`
loop counter), `relative(path, -1)[0]` is `path[0]` and `relative(path, +1)[N-1]` is
`path[N-1]`: at the open ends the neighbour is the point itself. -/
theorem relative_clamps_at_ends {α : Type} [Zero α] (path : List (List α))
    (hN : 1 ≤ path.length) (hmax : (path.length : Int) ≤ INT_MAX)
    (h3 : ∀ row ∈ path, row.length = 3) :
    ∃ previous next first last,
      relative path (-1) = some previous ∧ relative path 1 = some next ∧
      path[0]? = some first ∧ path[path.length - 1]? = some last ∧
      previous[0]? = some first ∧ next[path.length - 1]? = some last := by
  obtain ⟨previous, hp, -, hpget⟩ := relative_unit path (-1) h3 hmax (by omega)
  obtain ⟨next, hn, -, hnget⟩ := relative_unit path 1 h3 hmax (by omega)
  refine ⟨previous, next, path[0], path[path.length - 1], hp, hn,
    List.getElem?_eq_getElem (by omega), List.getElem?_eq_getElem (by omega), ?_, ?_⟩
  · rw [hpget 0 (by omega)]
    have : (clamp (((0 : Nat) : Int) + -1) 0 ((path.length : Int) - 1)).toNat = 0 := by
      unfold clamp
      split_ifs <;> omega
    rw [this]
    exact List.getElem?_eq_getElem (by omega)
  · rw [hnget (path.length - 1) (by omega)]
    have : (clamp (((path.length - 1 : Nat) : Int) + 1) 0 ((path.length : Int) - 1)).toNat
        = path.length - 1 := by
      unfold clamp
      split_ifs <;> omega
    rw [this]
    exact List.getElem?_eq_getElem (by omega)

/-- Witness for C4 on a two-point path. -/
theorem relative_clamps_at_ends_witness :
    ∃ previous next first last,
      relative [[1, 2, 3], [4, 5, (6 : Int)]] (-1) = some previous ∧
      relative [[1, 2, 3], [4, 5, (6 : Int)]] 1 = some next ∧
      [[1, 2, 3], [4, 5, (6 : Int)]][0]? = some first ∧
      [[1, 2, 3], [4, 5, (6 : Int)]][[[1, 2, 3], [4, 5, (6 : Int)]].length - 1]? = some last ∧
      previous[0]? = some first ∧
      next[[[1, 2, 3], [4, 5, (6 : Int)]].length - 1]? = some last :=
  relative_clamps_at_ends [[1, 2, 3], [4, 5, 6]] (by decide) (by decide) (by decide)

/-- C5: for a path of `N` three-component points (`N` within the range of the `int`
loop counter) and an index `i` with `1 < i < N-1`, `relative(path, -1)[i]` is
`path[i-1]` and `relative(path, +1)[i]` is `path[i+1]`. -/
theorem relative_interior {α : Type} [Zero α] (path : List (List α)) (i : Nat)
    (hmax : (path.length : Int) ≤ INT_MAX) (h3 : ∀ row ∈ path, row.length = 3)
    (h1 : 1 < i) (h2 : i < path.length - 1) :
    ∃ previous next before after,
      relative path (-1) = some previous ∧ relative path 1 = some next ∧
      path[i - 1]? = some before ∧ path[i + 1]? = some after ∧
      previous[i]? = some before ∧ next[i]? = some after := by
  obtain ⟨previous, hp, -, hpget⟩ := relative_unit path (-1) h3 hmax (by omega)
  obtain ⟨next, hn, -, hnget⟩ := relative_unit path 1 h3 hmax (by omega)
  refine ⟨previous, next, path[i - 1], path[i + 1], hp, hn,
    List.getElem?_eq_getElem (by omega), List.getElem?_eq_getElem (by omega), ?_, ?_⟩
  · rw [hpget i (by omega)]
    have : (clamp ((i : Int) + -1) 0 ((path.length : Int) - 1)).toNat = i - 1 := by
      unfold clamp
      split_ifs <;> omega
    rw [this]
    exact List.getElem?_eq_getElem (by omega)
  · rw [hnget i (by omega)]
    have : (clamp ((i : Int) + 1) 0 ((path.length : Int) - 1)).toNat = i + 1 := by
      unfold clamp
      split_ifs <;> omega
    rw [this]
    exact List.getElem?_eq_getElem (by omega)

/-- Witness for C5 at index `2` of a four-point path. -/
theorem relative_interior_witness :
    ∃ previous next before after,
      relative [[1, 2, 3], [4, 5, 6], [7, 8, 9], [10, 11, (12 : Int)]] (-1) = some previous ∧
      relative [[1, 2, 3], [4, 5, 6], [7, 8, 9], [10, 11, (12 : Int)]] 1 = some next ∧
      [[1, 2, 3], [4, 5, 6], [7, 8, 9], [10, 11, (12 : Int)]][2 - 1]? = some before ∧
      [[1, 2, 3], [4, 5, 6], [7, 8, 9], [10, 11, (12 : Int)]][2 + 1]? = some after ∧
      previous[2]? = some before ∧ next[2]? = some after :=
  relative_interior [[1, 2, 3], [4, 5, 6], [7, 8, 9], [10, 11, 12]] 2 (by decide) (by decide)
    (by decide) (by decide)

/-! ## `createIndices` -/

theorem store16_of_lt {indices : List Nat} {c : Nat} (h : c < indices.length) (v : Int) :
    store16 indices c v = some (indices.set c (toUint16 v)) := by
  simp [store16, h]

theorem createIndicesLoop_spec :
    ∀ (k c : Nat) (index : Int) (indices : List Nat), c + 6 * k ≤ indices.length →
      ∃ l, createIndicesLoop k c index indices = some l ∧ l.length = indices.length ∧
        (∀ p, p < c → l[p]? = indices[p]?) ∧
        (∀ m d, m < k → d < 6 →
          l[c + 6 * m + d]? = some (toUint16 (index + 2 * (m : Int) + quadOffset d)))
  | 0, c, index, indices, _ => by
    refine ⟨indices, rfl, rfl, fun _ _ => rfl, ?_⟩
    intro m d hm
    omega
  | k + 1, c, index, indices, hlen => by
    obtain ⟨l, hl, hlen', hold, hnew⟩ := createIndicesLoop_spec k (c + 6) (index + 2)
      ((((((indices.set c (toUint16 (index + 0))).set (c + 1) (toUint16 (index + 1))).set
        (c + 2) (toUint16 (index + 2))).set (c + 3) (toUint16 (index + 2))).set
        (c + 4) (toUint16 (index + 1))).set (c + 5) (toUint16 (index + 3)))
      (by simp only [List.length_set]; omega)
    simp only [List.length_set] at hlen'
    refine ⟨l, ?_, hlen', ?_, ?_⟩
    · simp only [createIndicesLoop, Option.pure_def, Option.bind_eq_bind]
      rw [store16_of_lt (by omega), Option.some_bind,
        store16_of_lt (by simp only [List.length_set]; omega), Option.some_bind,
        store16_of_lt (by simp only [List.length_set]; omega), Option.some_bind,
        store16_of_lt (by simp only [List.length_set]; omega), Option.some_bind,
        store16_of_lt (by simp only [List.length_set]; omega), Option.some_bind,
        store16_of_lt (by simp only [List.length_set]; omega), Option.some_bind]
      exact hl
    · intro p hp
      rw [hold p (by omega)]
      simp only [List.getElem?_set_ne (show c + 5 ≠ p by omega),
        List.getElem?_set_ne (show c + 4 ≠ p by omega),
        List.getElem?_set_ne (show c + 3 ≠ p by omega),
        List.getElem?_set_ne (show c + 2 ≠ p by omega),
        List.getElem?_set_ne (show c + 1 ≠ p by omega),
        List.getElem?_set_ne (show c ≠ p by omega)]
    · intro m d hm hd
      cases m with
      | zero =>
        rw [show c + 6 * 0 + d = c + d by omega, hold (c + d) (by omega)]
        interval_cases d <;>
          simp [List.getElem?_set, quadOffset] <;> omega
      | succ m =>
        have := hnew m d (by omega) hd
        rw [show c + 6 * (m + 1) + d = c + 6 + 6 * m + d by omega, this]
        congr 2
        push_cast
        ring

theorem mulInt_of_bounds {a b : Int} (h : INT_MIN ≤ a * b ∧ a * b ≤ INT_MAX) :
    mulInt a b = some (a * b) := by
  simp [mulInt, h]

theorem createIndices_core (N : Nat) (hN : 6 * (N : Int) ≤ INT_MAX) :
    ∃ l, createIndices N = some l ∧ l.length = 6 * N ∧
      ∀ j d, j < N → d < 6 → l[6 * j + d]? = some (toUint16 (2 * (j : Int) + quadOffset d)) := by
  have hN' : 6 * (N : Int) ≤ 2147483647 := hN
  obtain ⟨l, hl, hlen, -, hnew⟩ := createIndicesLoop_spec N 0 0 (List.replicate (6 * N) 0)
    (by simp)
  refine ⟨l, ?_, by simpa using hlen, ?_⟩
  · have hm : mulInt (N : Int) 6 = some ((N : Int) * 6) :=
      mulInt_of_bounds (by simp only [INT_MIN, INT_MAX]; omega)
    have hsz : ((N : Int) * 6).toNat = 6 * N := by omega
    simp only [createIndices, hm, Option.pure_def, Option.bind_eq_bind, Option.some_bind,
      Int.toNat_ofNat, hsz]
    rw [if_neg (by omega)]
    exact hl
  · intro j d hj hd
    have := hnew j d hj hd
    simpa using this

theorem createIndices_small (N : Nat) (h : 2 * N < 65536) :
    ∃ l, createIndices N = some l ∧ l.length = 6 * N ∧
      ∀ j, j < N →
        l[6 * j]? = some (2 * j) ∧ l[6 * j + 1]? = some (2 * j + 1) ∧
        l[6 * j + 2]? = some (2 * j + 2) ∧ l[6 * j + 3]? = some (2 * j + 2) ∧
        l[6 * j + 4]? = some (2 * j + 1) ∧ l[6 * j + 5]? = some (2 * j + 3) := by
  obtain ⟨l, hl, hlen, hget⟩ := createIndices_core N (by simp only [INT_MAX]; omega)
  refine ⟨l, hl, hlen, fun j hj => ?_⟩
  have h0 := hget j 0 hj (by omega)
  have h1 := hget j 1 hj (by omega)
  have h2 := hget j 2 hj (by omega)
  have h3 := hget j 3 hj (by omega)
  have h4 := hget j 4 hj (by omega)
  have h5 := hget j 5 hj (by omega)
  simp only [quadOffset, toUint16, Nat.add_zero] at h0 h1 h2 h3 h4 h5
  refine ⟨?_, ?_, ?_, ?_, ?_, ?_⟩
  · rw [h0]; congr 1; omega
  · rw [h1]; congr 1; omega
  · rw [h2]; congr 1; omega
  · rw [h3]; congr 1; omega
  · rw [h4]; congr 1; omega
  · rw [h5]; congr 1; omega

/-- C6, as stated, fails: `createIndices(32768)` holds `0`, not `2*32767 + 2 = 65536`, at
position `6*32767 + 2`, because the value is stored in a `uint16_t`. -/
theorem createIndices_exact_counterexample :
    ∃ l, createIndices 32768 = some l ∧ l.length = 6 * 32768 ∧
      l[6 * 32767 + 2]? = some 0 ∧ l[6 * 32767 + 2]? ≠ some (2 * 32767 + 2) := by
  obtain ⟨l, hl, hlen, hget⟩ := createIndices_core 32768 (by decide)
  have h := hget 32767 2 (by omega) (by omega)
  have hv : toUint16 (2 * ((32767 : Nat) : Int) + quadOffset 2) = 0 := by decide
  rw [hv] at h
  exact ⟨l, hl, hlen, h, by rw [h]; decide⟩

/-- C6 (amended): for every `pointCount` `N` with `2N < 65536`, `createIndices(N)` has
length `6N` and the six values at positions `6j .. 6j+5` (`j < N`) are
`2j, 2j+1, 2j+2, 2j+2, 2j+1, 2j+3`, in that order. -/
theorem createIndices_spec (N : Nat) (h : 2 * N < 65536) :
    ∃ l, createIndices N = some l ∧ l.length = 6 * N ∧
      ∀ j, j < N →
        l[6 * j]? = some (2 * j) ∧ l[6 * j + 1]? = some (2 * j + 1) ∧
        l[6 * j + 2]? = some (2 * j + 2) ∧ l[6 * j + 3]? = some (2 * j + 2) ∧
        l[6 * j + 4]? = some (2 * j + 1) ∧ l[6 * j + 5]? = some (2 * j + 3) :=
  createIndices_small N h

/-- Witness for C6 (amended) at `N = 2`. -/
theorem createIndices_spec_witness :
    ∃ l, createIndices (2 : Nat) = some l ∧ l.length = 6 * 2 ∧
      ∀ j, j < 2 →
        l[6 * j]? = some (2 * j) ∧ l[6 * j + 1]? = some (2 * j + 1) ∧
        l[6 * j + 2]? = some (2 * j + 2) ∧ l[6 * j + 3]? = some (2 * j + 2) ∧
        l[6 * j + 4]? = some (2 * j + 1) ∧ l[6 * j + 5]? = some (2 * j + 3) :=
  createIndices_spec 2 (by decide)

theorem drawCount_small (N : Nat) (hN : 1 ≤ N) (h : 2 * N < 65536) :
    drawCount N = ((6 * (N - 1) : Nat) : Int) := by
  simp only [drawCount, toInt32]
  omega

/-- C7: for a path of `N ≥ 1` points with `2N < 65536`, each of the first `(N-1)*6`
entries of `createIndices(N)`, the entries the draw call of `main` reads, is at most
`2N-1`, so it names one of the `2N` vertices of the buffers made by `duplicate`
(`2N` scalars for `mirror`, `2N` triples otherwise). -/
theorem drawn_indices_in_range {α : Type} [One α] [Neg α] (path : List (List α))
    (hN : 1 ≤ path.length) (h16 : 2 * path.length < 65536) :
    ∃ indices direction,
      createIndices path.length = some indices ∧
      duplicate path true = some direction ∧ direction.length = 2 * path.length ∧
      ((∀ row ∈ path, 3 ≤ row.length) →
        ∃ positions, duplicate path false = some positions ∧
          positions.length = 3 * (2 * path.length)) ∧
      drawCount path.length = (((path.length - 1) * 6 : Nat) : Int) ∧
      ∀ p : Nat, (p : Int) < drawCount path.length →
        ∃ x, indices[p]? = some x ∧ x ≤ 2 * path.length - 1 := by
  obtain ⟨indices, hidx, -, hget⟩ := createIndices_small path.length h16
  have hcount := drawCount_small path.length hN h16
  refine ⟨indices, duplicateMirrorLoop path.length [], hidx, by simp [duplicate],
    by simp [duplicateMirrorLoop_length], ?_, by rw [hcount, Nat.mul_comm], ?_⟩
  · intro h3
    obtain ⟨positions, hp, hlen, -⟩ := duplicate_false_core path h3
    exact ⟨positions, hp, by rw [hlen]; omega⟩
  · intro p hp
    rw [hcount] at hp
    have hp' : p < 6 * (path.length - 1) := by exact_mod_cast hp
    obtain ⟨q, d, hd, hpq⟩ : ∃ q d, d < 6 ∧ p = 6 * q + d :=
      ⟨p / 6, p % 6, Nat.mod_lt _ (by omega), by omega⟩
    subst hpq
    obtain ⟨h0, h1, h2, h3, h4, h5⟩ := hget q (by omega)
    interval_cases d
    · exact ⟨_, h0, by omega⟩
    · exact ⟨_, h1, by omega⟩
    · exact ⟨_, h2, by omega⟩
    · exact ⟨_, h3, by omega⟩
    · exact ⟨_, h4, by omega⟩
    · exact ⟨_, h5, by omega⟩

/-- Witness for C7 on a two-point path. -/
theorem drawn_indices_in_range_witness :
    ∃ indices direction,
      createIndices [[1, 2, 3], [4, 5, (6 : Int)]].length = some indices ∧
      duplicate [[1, 2, 3], [4, 5, (6 : Int)]] true = some direction ∧
      direction.length = 2 * [[1, 2, 3], [4, 5, (6 : Int)]].length ∧
      ((∀ row ∈ [[1, 2, 3], [4, 5, (6 : Int)]], 3 ≤ row.length) →
        ∃ positions, duplicate [[1, 2, 3], [4, 5, (6 : Int)]] false = some positions ∧
          positions.length = 3 * (2 * [[1, 2, 3], [4, 5, (6 : Int)]].length)) ∧
      drawCount [[1, 2, 3], [4, 5, (6 : Int)]].length =
        ((([[1, 2, 3], [4, 5, (6 : Int)]].length - 1) * 6 : Nat) : Int) ∧
      ∀ p : Nat, (p : Int) < drawCount [[1, 2, 3], [4, 5, (6 : Int)]].length →
        ∃ x, indices[p]? = some x ∧ x ≤ 2 * [[1, 2, 3], [4, 5, (6 : Int)]].length - 1 :=
  drawn_indices_in_range [[1, 2, 3], [4, 5, 6]] (by decide) (by decide)

/-- C8: for `N ≥ 1` with `2N < 65536`, the last quad of `createIndices(N)` (positions
`6(N-1) .. 6N-1`) holds `2(N-1)+2 = 2N` and `2(N-1)+3 = 2N+1`, both greater than `2N-1`,
the last index into `2N` duplicated vertices. -/
theorem createIndices_last_quad (N : Nat) (hN : 1 ≤ N) (h : 2 * N < 65536) :
    ∃ l, createIndices N = some l ∧ l.length = 6 * N ∧
      l[6 * (N - 1) + 2]? = some (2 * (N - 1) + 2) ∧
      l[6 * (N - 1) + 3]? = some (2 * (N - 1) + 2) ∧
      l[6 * (N - 1) + 5]? = some (2 * (N - 1) + 3) ∧
      2 * (N - 1) + 2 = 2 * N ∧ 2 * (N - 1) + 3 = 2 * N + 1 ∧
      2 * N - 1 < 2 * N ∧ 2 * N - 1 < 2 * N + 1 := by
  obtain ⟨l, hl, hlen, hget⟩ := createIndices_small N h
  obtain ⟨-, -, h2, h3, -, h5⟩ := hget (N - 1) (by omega)
  exact ⟨l, hl, hlen, h2, h3, h5, by omega, by omega, by omega, by omega⟩

/-- Witness for C8 at `N = 2`. -/
theorem createIndices_last_quad_witness :
    ∃ l, createIndices (2 : Nat) = some l ∧ l.length = 6 * 2 ∧
      l[6 * (2 - 1) + 2]? = some (2 * (2 - 1) + 2) ∧
      l[6 * (2 - 1) + 3]? = some (2 * (2 - 1) + 2) ∧
      l[6 * (2 - 1) + 5]? = some (2 * (2 - 1) + 3) ∧
      2 * (2 - 1) + 2 = 2 * 2 ∧ 2 * (2 - 1) + 3 = 2 * 2 + 1 ∧
      2 * 2 - 1 < 2 * 2 ∧ 2 * 2 - 1 < 2 * 2 + 1 :=
  createIndices_last_quad 2 (by decide) (by decide)

theorem createIndices_negative (N : Int) (h : N < 0) : createIndices N = none := by
  unfold createIndices mulInt
  split_ifs with h1
  · simp only [Option.pure_def, Option.bind_eq_bind, Option.some_bind]
    rw [if_pos (by omega)]
  · rfl

/-- C9: for every `pointCount` `N` with `N * 2 < 65536`, no store of `createIndices(N)`
is truncated: each stored `uint16_t` is the exact `int` value `2j + d`, every stored
value is at most `2N + 1 ≤ 65535`, and `2N + 1` is stored when `N ≥ 1`. A negative `N`
stores nothing. -/
theorem createIndices_no_overflow (N : Int) (h : N * 2 < 65536) :
    (N < 0 → createIndices N = none) ∧
    (0 ≤ N → ∃ l, createIndices N = some l ∧ l.length = 6 * N.toNat ∧
      (∀ j : Nat, (j : Int) < N →
        l[6 * j]? = some (2 * j) ∧ l[6 * j + 1]? = some (2 * j + 1) ∧
        l[6 * j + 2]? = some (2 * j + 2) ∧ l[6 * j + 3]? = some (2 * j + 2) ∧
        l[6 * j + 4]? = some (2 * j + 1) ∧ l[6 * j + 5]? = some (2 * j + 3)) ∧
      (∀ (p x : Nat), l[p]? = some x → (x : Int) ≤ 2 * N + 1 ∧ 2 * N + 1 ≤ 65535) ∧
      (1 ≤ N → l[6 * (N.toNat - 1) + 5]? = some (2 * N.toNat + 1))) := by
  refine ⟨createIndices_negative N, fun h0 => ?_⟩
  obtain ⟨n, rfl⟩ := Int.eq_ofNat_of_zero_le h0
  obtain ⟨l, hl, hlen, hget⟩ := createIndices_small n (by omega)
  refine ⟨l, hl, by simpa using hlen, fun j hj => hget j (by omega), ?_, ?_⟩
  · intro p x hx
    have hp : p < 6 * n := by
      rw [← hlen]
      exact (List.getElem?_eq_some_iff.mp hx).1
    obtain ⟨q, d, hd, hpq⟩ : ∃ q d, d < 6 ∧ p = 6 * q + d :=
      ⟨p / 6, p % 6, Nat.mod_lt _ (by omega), by omega⟩
    subst hpq
    obtain ⟨h0, h1, h2, h3, h4, h5⟩ := hget q (by omega)
    interval_cases d
    · rw [Nat.add_zero, h0] at hx; cases hx; omega
    · rw [h1] at hx; cases hx; omega
    · rw [h2] at hx; cases hx; omega
    · rw [h3] at hx; cases hx; omega
    · rw [h4] at hx; cases hx; omega
    · rw [h5] at hx; cases hx; omega
  · intro h1
    obtain ⟨-, -, -, -, -, h5⟩ := hget (n - 1) (by omega)
    rw [Int.toNat_ofNat, h5]
    congr 1
    omega

/-- Witness for C9 at `N = 3`. -/
theorem createIndices_no_overflow_witness :
    ((3 : Int) < 0 → createIndices 3 = none) ∧
    ((0 : Int) ≤ 3 → ∃ l, createIndices 3 = some l ∧ l.length = 6 * (3 : Int).toNat ∧
      (∀ j : Nat, (j : Int) < 3 →
        l[6 * j]? = some (2 * j) ∧ l[6 * j + 1]? = some (2 * j + 1) ∧
        l[6 * j + 2]? = some (2 * j + 2) ∧ l[6 * j + 3]? = some (2 * j + 2) ∧
        l[6 * j + 4]? = some (2 * j + 1) ∧ l[6 * j + 5]? = some (2 * j + 3)) ∧
      (∀ (p x : Nat), l[p]? = some x → (x : Int) ≤ 2 * 3 + 1 ∧ (2 * 3 + 1 : Int) ≤ 65535) ∧
      ((1 : Int) ≤ 3 → l[6 * ((3 : Int).toNat - 1) + 5]? = some (2 * (3 : Int).toNat + 1))) :=
  createIndices_no_overflow 3 (by decide)

/-! ## The `previous` and `next` vertex buffers of `main` -/

theorem block_of_getElem? {α : Type} (l pt : List α) (s : Nat) (hpt : pt.length = 3)
    (h : ∀ c, c < 3 → l[s + c]? = pt[c]?) : (l.drop s).take 3 = pt := by
  apply List.ext_getElem?
  intro n
  by_cases hn : n < 3
  · rw [List.getElem?_take_of_lt hn, List.getElem?_drop, h n hn]
  · rw [List.getElem?_take_eq_none (by omega), List.getElem?_eq_none (by omega)]

theorem duplicate_relative_unit {α : Type} [Zero α] [One α] [Neg α] (path : List (List α))
    (offset : Int) (h3 : ∀ row ∈ path, row.length = 3)
    (hmax : (path.length : Int) ≤ INT_MAX) (hoff : -1 ≤ offset ∧ offset ≤ 1) :
    ∃ r buffer, relative path offset = some r ∧ duplicate r false = some buffer ∧
      buffer.length = 6 * path.length ∧
      ∀ v, v < 2 * path.length →
        ∃ pt, path[(clamp (((v / 2 : Nat) : Int) + offset) 0
            ((path.length : Int) - 1)).toNat]? = some pt ∧
          (buffer.drop (3 * v)).take 3 = pt := by
  obtain ⟨r, hr, hrlen, hrget⟩ := relative_unit path offset h3 hmax hoff
  have hrows : ∀ row ∈ r, row.length = 3 := by
    intro row hrow
    obtain ⟨i, hi⟩ := List.mem_iff_getElem?.mp hrow
    have hilt : i < path.length := by
      rw [← hrlen]
      exact (List.getElem?_eq_some_iff.mp hi).1
    rw [hrget i hilt] at hi
    exact h3 _ (List.getElem?_mem hi)
  obtain ⟨buffer, hb, hblen, hbget⟩ := duplicate_false_core r
    (fun row hrow => by rw [hrows row hrow])
  refine ⟨r, buffer, hr, hb, by rw [hblen, hrlen], fun v hv => ?_⟩
  have hi : v / 2 < r.length := by omega
  have hrow : r[v / 2]? = some r[v / 2] := List.getElem?_eq_getElem hi
  refine ⟨r[v / 2], by rw [← hrget (v / 2) (by omega)]; exact hrow, ?_⟩
  apply block_of_getElem? _ _ _ (hrows _ (List.getElem_mem hi))
  intro c hc
  rw [show 3 * v + c = 6 * (v / 2) + (3 * (v % 2) + c) by omega,
    hbget (v / 2) (3 * (v % 2) + c) _ hrow (by omega),
    show (3 * (v % 2) + c) % 3 = c by omega]

/-- C10: for a path of `N` three-component points (`N` within the range of the `int`
loop counter), the buffers `duplicate(relative(path,-1), false)` and
`duplicate(relative(path,+1), false)` have length `6N`, like the positions buffer, and
the three floats of vertex slot `v < 2N` are `path[max(v/2 - 1, 0)]` in the first and
`path[min(v/2 + 1, N-1)]` in the second; on the path of `main`, `relative(path,-1)` and
`relative(path,+1)` are the two lists given in the specification. -/
theorem neighbour_buffers {α : Type} [Zero α] [One α] [Neg α] (path : List (List α))
    (hmax : (path.length : Int) ≤ INT_MAX) (h3 : ∀ row ∈ path, row.length = 3) :
    (∃ previous next previousBuffer nextBuffer positions,
      relative path (-1) = some previous ∧ relative path 1 = some next ∧
      duplicate previous false = some previousBuffer ∧
      duplicate next false = some nextBuffer ∧
      duplicate path false = some positions ∧
      previousBuffer.length = 6 * path.length ∧ nextBuffer.length = 6 * path.length ∧
      positions.length = 6 * path.length ∧
      ∀ v, v < 2 * path.length →
        (∃ pt, path[(max (((v / 2 : Nat) : Int) - 1) 0).toNat]? = some pt ∧
          (previousBuffer.drop (3 * v)).take 3 = pt) ∧
        (∃ pt, path[min (v / 2 + 1) (path.length - 1)]? = some pt ∧
          (nextBuffer.drop (3 * v)).take 3 = pt)) ∧
    relative samplePath (-1) =
      some [[0, -1, 0], [0, -1, 0], [1, -1, 0], [0, 0, 0], [1, 0, 0]] ∧
    relative samplePath 1 =
      some [[1, -1, 0], [0, 0, 0], [1, 0, 0], [0.25, -0.75, 0], [0.25, -0.75, 0]] := by
  refine ⟨?_, rfl, rfl⟩
  obtain ⟨previous, pb, hp, hpb, hplen, hpget⟩ :=
    duplicate_relative_unit path (-1) h3 hmax (by omega)
  obtain ⟨next, nb, hn, hnb, hnlen, hnget⟩ :=
    duplicate_relative_unit path 1 h3 hmax (by omega)
  obtain ⟨positions, hpos, hposlen, -⟩ := duplicate_false_core path
    (fun row hrow => by rw [h3 row hrow])
  refine ⟨previous, next, pb, nb, positions, hp, hn, hpb, hnb, hpos, hplen, hnlen, hposlen,
    fun v hv => ⟨?_, ?_⟩⟩
  · obtain ⟨pt, h1, h2⟩ := hpget v hv
    refine ⟨pt, ?_, h2⟩
    rw [← h1]
    congr 1
    unfold clamp
    split_ifs <;> omega
  · obtain ⟨pt, h1, h2⟩ := hnget v hv
    refine ⟨pt, ?_, h2⟩
    rw [← h1]
    congr 1
    unfold clamp
    split_ifs <;> omega

/-- Witness for C10 on the path of `main`. -/
theorem neighbour_buffers_witness :
    (∃ previous next previousBuffer nextBuffer positions,
      relative samplePath (-1) = some previous ∧ relative samplePath 1 = some next ∧
      duplicate previous false = some previousBuffer ∧
      duplicate next false = some nextBuffer ∧
      duplicate samplePath false = some positions ∧
      previousBuffer.length = 6 * samplePath.length ∧
      nextBuffer.length = 6 * samplePath.length ∧
      positions.length = 6 * samplePath.length ∧
      ∀ v, v < 2 * samplePath.length →
        (∃ pt, samplePath[(max (((v / 2 : Nat) : Int) - 1) 0).toNat]? = some pt ∧
          (previousBuffer.drop (3 * v)).take 3 = pt) ∧
        (∃ pt, samplePath[min (v / 2 + 1) (samplePath.length - 1)]? = some pt ∧
          (nextBuffer.drop (3 * v)).take 3 = pt)) ∧
    relative samplePath (-1) =
      some [[0, -1, 0], [0, -1, 0], [1, -1, 0], [0, 0, 0], [1, 0, 0]] ∧
    relative samplePath 1 =
      some [[1, -1, 0], [0, 0, 0], [1, 0, 0], [0.25, -0.75, 0], [0.25, -0.75, 0]] :=
  neighbour_buffers samplePath (by decide) (by decide)

/-! ## Empty paths and the draw count -/

/-- C11: on an empty path every operation returns an empty output without failing:
`duplicate([], true)`, `duplicate([], false)`, `relative([], offset)` for every offset
(no loop iteration runs, so the clamp bound `size() - 1` is never used) and
`createIndices(0)` are all empty. -/
theorem empty_path_outputs {α : Type} [Zero α] [One α] [Neg α] :
    duplicate ([] : List (List α)) true = some [] ∧
    duplicate ([] : List (List α)) false = some [] ∧
    (∀ offset : Int, relative ([] : List (List α)) offset = some []) ∧
    createIndices 0 = some [] :=
  ⟨rfl, rfl, fun _ => rfl, by decide⟩

theorem drawCount_of_fit (N : Nat) (hN : 1 ≤ N) (hfit : 6 * (N : Int) ≤ INT_MAX) :
    drawCount N = ((N - 1 : Nat) : Int) * 6 := by
  have hfit' : 6 * (N : Int) ≤ 2147483647 := hfit
  simp only [drawCount, toInt32]
  omega

/-- C12: for a path of `N ≥ 1` points (with the index buffer size `N * 6` representable
as an `int`, so that `createIndices(N)` returns), the draw count of `main` is
`segmentCount * 6` with `segmentCount = N - 1`, it is exactly `6` less than the length
of `createIndices(N)`, and on the 5-point path of `main` it is `24`. -/
theorem drawCount_spec {α : Type} (path : List (List α)) (hN : 1 ≤ path.length)
    (hfit : 6 * (path.length : Int) ≤ INT_MAX) :
    drawCount path.length = ((path.length - 1 : Nat) : Int) * 6 ∧
    (∃ indices, createIndices path.length = some indices ∧
      drawCount path.length + 6 = (indices.length : Int)) ∧
    drawCount samplePath.length = 24 := by
  have hcount := drawCount_of_fit path.length hN hfit
  obtain ⟨indices, hidx, hlen, -⟩ := createIndices_core path.length hfit
  refine ⟨hcount, ⟨indices, hidx, ?_⟩, by decide⟩
  rw [hcount, hlen]
  omega

/-- Witness for C12 on a two-point path. -/
theorem drawCount_spec_witness :
    drawCount [[1, 2, 3], [4, 5, (6 : Int)]].length =
      (([[1, 2, 3], [4, 5, (6 : Int)]].length - 1 : Nat) : Int) * 6 ∧
    (∃ indices, createIndices [[1, 2, 3], [4, 5, (6 : Int)]].length = some indices ∧
      drawCount [[1, 2, 3], [4, 5, (6 : Int)]].length + 6 = (indices.length : Int)) ∧
    drawCount samplePath.length = 24 :=
  drawCount_spec [[1, 2, 3], [4, 5, 6]] (by decide) (by decide)

/-! ## `clamp` -/

/-- C18: for `begin ≤ end`, `clamp(value, begin, end)` is `max(begin, min(value, end))`:
it lies in `[begin, end]`, is `value` when `begin ≤ value ≤ end`, `end` when
`value > end` and `begin` when `value < begin`; it is idempotent and monotone in
`value`. -/
theorem clamp_spec (value begin_ end_ : Int) (hbe : begin_ ≤ end_) :
    clamp value begin_ end_ = max begin_ (min value end_) ∧
    (begin_ ≤ clamp value begin_ end_ ∧ clamp value begin_ end_ ≤ end_) ∧
    (begin_ ≤ value → value ≤ end_ → clamp value begin_ end_ = value) ∧
    (value > end_ → clamp value begin_ end_ = end_) ∧
    (value < begin_ → clamp value begin_ end_ = begin_) ∧
    clamp (clamp value begin_ end_) begin_ end_ = clamp value begin_ end_ ∧
    (∀ other : Int, value ≤ other → clamp value begin_ end_ ≤ clamp other begin_ end_) := by
  refine ⟨?_, ⟨?_, ?_⟩, ?_, ?_, ?_, ?_, ?_⟩
  · unfold clamp
    split_ifs <;> omega
  · unfold clamp
    split_ifs <;> omega
  · unfold clamp
    split_ifs <;> omega
  · intro h1 h2
    unfold clamp
    split_ifs <;> omega
  · intro h1
    unfold clamp
    rw [if_pos h1]
  · intro h1
    unfold clamp
    rw [if_neg (by omega), if_pos h1]
  · unfold clamp
    split_ifs <;> omega
  · intro other h1
    unfold clamp
    split_ifs <;> omega

/-- Witness for C18 with `value = 7`, `begin = 0`, `end = 4`. -/
theorem clamp_spec_witness :
    clamp 7 0 4 = max 0 (min 7 4) ∧
    ((0 : Int) ≤ clamp 7 0 4 ∧ clamp 7 0 4 ≤ 4) ∧
    ((0 : Int) ≤ 7 → (7 : Int) ≤ 4 → clamp 7 0 4 = 7) ∧
    ((7 : Int) > 4 → clamp 7 0 4 = 4) ∧
    ((7 : Int) < 0 → clamp 7 0 4 = 0) ∧
    clamp (clamp 7 0 4) 0 4 = clamp 7 0 4 ∧
    (∀ other : Int, 7 ≤ other → clamp 7 0 4 ≤ clamp other 0 4) :=
  clamp_spec 7 0 4 (by decide)

/-! ## Bounds and saturation of `relative` -/

/-- C19: for a path of `N ≥ 1` points and an offset for which no `i + offset` (`i < N`)
overflows `int`, the source index `clamp(i + offset, 0, N-1)` of every iteration lies
in `[0, N-1]`, so the read `array[index]` finds a point; with points of at least
three coordinates no read of `relative` is out of bounds and it returns a result. -/
theorem relative_reads_in_bounds {α : Type} [Zero α] (path : List (List α)) (offset : Int)
    (hN : 1 ≤ path.length)
    (hov : ∀ i : Nat, i < path.length →
      INT_MIN ≤ (i : Int) + offset ∧ (i : Int) + offset ≤ INT_MAX) :
    (∀ i : Nat, i < path.length →
      addInt i offset = some ((i : Int) + offset) ∧
      0 ≤ clamp ((i : Int) + offset) 0 ((path.length : Int) - 1) ∧
      clamp ((i : Int) + offset) 0 ((path.length : Int) - 1) ≤ (path.length : Int) - 1 ∧
      ∃ src, path[(clamp ((i : Int) + offset) 0 ((path.length : Int) - 1)).toNat]? = some src) ∧
    ((∀ row ∈ path, 3 ≤ row.length) → ∃ r, relative path offset = some r) := by
  refine ⟨fun i hi => ?_, fun h3 => ?_⟩
  · obtain ⟨h0, h1⟩ :=
      clamp_bounds ((i : Int) + offset) ((path.length : Int) - 1) (by omega)
    have hidx : (clamp ((i : Int) + offset) 0 ((path.length : Int) - 1)).toNat
        < path.length := by omega
    exact ⟨addInt_of_bounds (hov i hi), h0, h1, _, List.getElem?_eq_getElem hidx⟩
  · obtain ⟨r, hr, -⟩ := relative_core path offset h3 hov
    exact ⟨r, hr⟩

/-- Witness for C19 on a three-point path with offset `5`. -/
theorem relative_reads_in_bounds_witness :
    (∀ i : Nat, i < [[1, 2, 3], [4, 5, 6], [7, 8, (9 : Int)]].length →
      addInt i 5 = some ((i : Int) + 5) ∧
      0 ≤ clamp ((i : Int) + 5) 0
        (([[1, 2, 3], [4, 5, 6], [7, 8, (9 : Int)]].length : Int) - 1) ∧
      clamp ((i : Int) + 5) 0
        (([[1, 2, 3], [4, 5, 6], [7, 8, (9 : Int)]].length : Int) - 1) ≤
          ([[1, 2, 3], [4, 5, 6], [7, 8, (9 : Int)]].length : Int) - 1 ∧
      ∃ src, [[1, 2, 3], [4, 5, 6], [7, 8, (9 : Int)]][(clamp ((i : Int) + 5) 0
        (([[1, 2, 3], [4, 5, 6], [7, 8, (9 : Int)]].length : Int) - 1)).toNat]? = some src) ∧
    ((∀ row ∈ [[1, 2, 3], [4, 5, 6], [7, 8, (9 : Int)]], 3 ≤ row.length) →
      ∃ r, relative [[1, 2, 3], [4, 5, 6], [7, 8, (9 : Int)]] 5 = some r) :=
  relative_reads_in_bounds [[1, 2, 3], [4, 5, 6], [7, 8, 9]] 5 (by decide)
    (by
      intro i hi
      simp only [List.length_cons, List.length_nil, INT_MIN, INT_MAX] at *
      omega)

/-- C20, as stated, fails: on a two-point path the offset `INT_MAX` is at least `N - 1`,
but `1 + INT_MAX` is not representable, so `relative` has no defined result. -/
theorem relative_saturates_counterexample :
    ((([[1, 2, 3], [4, 5, (6 : Int)]].length : Int) - 1 ≤ 2147483647) ∧
      (2147483647 : Int) ≤ INT_MAX) ∧
    addInt 1 2147483647 = none ∧
    relative [[1, 2, 3], [4, 5, (6 : Int)]] 2147483647 = none := by
  decide

/-- C20 (amended): for a path of `N ≥ 1` three-component points and an offset for which
no `i + offset` (`i < N`) overflows `int`, if `offset ≥ N-1` every entry of
`relative(path, offset)` is `path[N-1]`, and if `offset ≤ -(N-1)` every entry is
`path[0]`. -/
theorem relative_saturates {α : Type} [Zero α] (path : List (List α)) (offset : Int)
    (hN : 1 ≤ path.length) (h3 : ∀ row ∈ path, row.length = 3)
    (hov : ∀ i : Nat, i < path.length →
      INT_MIN ≤ (i : Int) + offset ∧ (i : Int) + offset ≤ INT_MAX) :
    ∃ r first last, relative path offset = some r ∧ r.length = path.length ∧
      path[0]? = some first ∧ path[path.length - 1]? = some last ∧
      ((path.length : Int) - 1 ≤ offset → ∀ i, i < path.length → r[i]? = some last) ∧
      (offset ≤ -((path.length : Int) - 1) → ∀ i, i < path.length → r[i]? = some first) := by
  obtain ⟨r, hr, hlen, hget⟩ := relative_core path offset
    (fun row hrow => by rw [h3 row hrow]) hov
  have hfirst : path[0]? = some path[0] := List.getElem?_eq_getElem (by omega)
  have hlast : path[path.length - 1]? = some path[path.length - 1] :=
    List.getElem?_eq_getElem (by omega)
  refine ⟨r, path[0], path[path.length - 1], hr, hlen, hfirst, hlast, ?_, ?_⟩
  · intro hoff i hi
    obtain ⟨src, h1, -, h2⟩ := hget i hi
    have hidx : (clamp ((i : Int) + offset) 0 ((path.length : Int) - 1)).toNat
        = path.length - 1 := by
      unfold clamp
      split_ifs <;> omega
    rw [hidx, hlast] at h1
    cases h1
    rw [h2, take_three_of_length (h3 _ (List.getElem_mem _))]
  · intro hoff i hi
    obtain ⟨src, h1, -, h2⟩ := hget i hi
    have hidx : (clamp ((i : Int) + offset) 0 ((path.length : Int) - 1)).toNat = 0 := by
      unfold clamp
      split_ifs <;> omega
    rw [hidx, hfirst] at h1
    cases h1
    rw [h2, take_three_of_length (h3 _ (List.getElem_mem _))]

/-- Witness for C20 (amended) on a three-point path with offset `5`. -/
theorem relative_saturates_witness :
    ∃ r first last, relative [[1, 2, 3], [4, 5, 6], [7, 8, (9 : Int)]] 5 = some r ∧
      r.length = [[1, 2, 3], [4, 5, 6], [7, 8, (9 : Int)]].length ∧
      [[1, 2, 3], [4, 5, 6], [7, 8, (9 : Int)]][0]? = some first ∧
      [[1, 2, 3], [4, 5, 6], [7, 8, (9 : Int)]][[[1, 2, 3], [4, 5, 6], [7, 8, (9 : Int)]].length - 1]?
        = some last ∧
      (([[1, 2, 3], [4, 5, 6], [7, 8, (9 : Int)]].length : Int) - 1 ≤ 5 →
        ∀ i, i < [[1, 2, 3], [4, 5, 6], [7, 8, (9 : Int)]].length → r[i]? = some last) ∧
      ((5 : Int) ≤ -(([[1, 2, 3], [4, 5, 6], [7, 8, (9 : Int)]].length : Int) - 1) →
        ∀ i, i < [[1, 2, 3], [4, 5, 6], [7, 8, (9 : Int)]].length → r[i]? = some first) :=
  relative_saturates [[1, 2, 3], [4, 5, 6], [7, 8, 9]] 5 (by decide) (by decide)
    (by
      intro i hi
      simp only [List.length_cons, List.length_nil, INT_MIN, INT_MAX] at *
      omega)

/-! ## `duplicate` and concatenation -/

theorem duplicateMirrorLoop_acc {α : Type} [One α] [Neg α] :
    ∀ (k : Nat) (result : List α),
      duplicateMirrorLoop k result = result ++ duplicateMirrorLoop k []
  | 0, result => by simp [duplicateMirrorLoop]
  | k + 1, result => by
    simp only [duplicateMirrorLoop, push_back, List.nil_append, List.append_assoc,
      List.singleton_append]
    rw [duplicateMirrorLoop_acc k (result ++ [-1, 1]), duplicateMirrorLoop_acc k [-1, 1],
      List.append_assoc]

theorem duplicateMirrorLoop_add {α : Type} [One α] [Neg α] :
    ∀ (m n : Nat), (duplicateMirrorLoop (m + n) [] : List α) =
      duplicateMirrorLoop m [] ++ duplicateMirrorLoop n []
  | 0, n => by simp [duplicateMirrorLoop]
  | m + 1, n => by
    rw [show m + 1 + n = (m + n) + 1 by omega]
    simp only [duplicateMirrorLoop, push_back, List.nil_append, List.singleton_append]
    rw [duplicateMirrorLoop_acc (m + n) [-1, 1], duplicateMirrorLoop_acc m [-1, 1],
      duplicateMirrorLoop_add m n, List.append_assoc]

theorem duplicateLoop_succ {α : Type} (array : List (List α)) (k i : Nat) (result : List α) :
    duplicateLoop array (k + 1) i result =
      (at2 array i 0).bind fun x => (at2 array i 1).bind fun y => (at2 array i 2).bind fun z =>
        duplicateLoop array k (i + 1) (result ++ [x, y, z, x, y, z]) := by
  simp only [duplicateLoop, push_back, Option.pure_def, Option.bind_eq_bind]
  cases at2 array i 0 <;> cases at2 array i 1 <;> cases at2 array i 2 <;> simp

theorem duplicateLoop_acc {α : Type} (array : List (List α)) :
    ∀ (k i : Nat) (result : List α),
      duplicateLoop array k i result =
        (duplicateLoop array k i []).map fun tail => result ++ tail
  | 0, i, result => by simp [duplicateLoop]
  | k + 1, i, result => by
    rw [duplicateLoop_succ, duplicateLoop_succ]
    cases at2 array i 0 with
    | none => rfl
    | some x =>
      cases at2 array i 1 with
      | none => rfl
      | some y =>
        cases at2 array i 2 with
        | none => rfl
        | some z =>
          simp only [Option.some_bind, List.nil_append]
          rw [duplicateLoop_acc array k (i + 1) (result ++ [x, y, z, x, y, z]),
            duplicateLoop_acc array k (i + 1) [x, y, z, x, y, z], Option.map_map]
          congr 1
          funext tail
          simp

theorem duplicateLoop_add {α : Type} (array : List (List α)) :
    ∀ (m n i : Nat) (result : List α),
      duplicateLoop array (m + n) i result =
        (duplicateLoop array m i result).bind fun r => duplicateLoop array n (i + m) r
  | 0, n, i, result => by simp [duplicateLoop]
  | m + 1, n, i, result => by
    rw [show m + 1 + n = (m + n) + 1 by omega, duplicateLoop_succ, duplicateLoop_succ]
    cases at2 array i 0 with
    | none => rfl
    | some x =>
      cases at2 array i 1 with
      | none => rfl
      | some y =>
        cases at2 array i 2 with
        | none => rfl
        | some z =>
          simp only [Option.some_bind]
          rw [duplicateLoop_add array m n (i + 1), show i + 1 + m = i + (m + 1) by omega]

theorem duplicateLoop_append_left {α : Type} (a b : List (List α)) :
    ∀ (k i : Nat) (result : List α), i + k ≤ a.length →
      duplicateLoop (a ++ b) k i result = duplicateLoop a k i result
  | 0, i, result, _ => by simp [duplicateLoop]
  | k + 1, i, result, h => by
    have hread : ∀ c, at2 (a ++ b) i c = at2 a i c := fun c => by
      simp only [at2, List.getElem?_append_left (show i < a.length by omega)]
    rw [duplicateLoop_succ, duplicateLoop_succ, hread, hread, hread]
    cases at2 a i 0 with
    | none => rfl
    | some x =>
      cases at2 a i 1 with
      | none => rfl
      | some y =>
        cases at2 a i 2 with
        | none => rfl
        | some z =>
          simp only [Option.some_bind]
          exact duplicateLoop_append_left a b k (i + 1) _ (by omega)

theorem duplicateLoop_append_right {α : Type} (a b : List (List α)) :
    ∀ (k i : Nat) (result : List α),
      duplicateLoop (a ++ b) k (a.length + i) result = duplicateLoop b k i result
  | 0, i, result => by simp [duplicateLoop]
  | k + 1, i, result => by
    have hread : ∀ c, at2 (a ++ b) (a.length + i) c = at2 b i c := fun c => by
      simp only [at2, List.getElem?_append_right (show a.length ≤ a.length + i by omega),
        Nat.add_sub_cancel_left]
    rw [duplicateLoop_succ, duplicateLoop_succ, hread, hread, hread]
    cases at2 b i 0 with
    | none => rfl
    | some x =>
      cases at2 b i 1 with
      | none => rfl
      | some y =>
        cases at2 b i 2 with
        | none => rfl
        | some z =>
          simp only [Option.some_bind]
          exact duplicateLoop_append_right a b k (i + 1) _

theorem duplicate_append_core {α : Type} [One α] [Neg α] (a b : List (List α))
    (mirror : Bool) :
    duplicate (a ++ b) mirror =
      (duplicate a mirror).bind fun x => (duplicate b mirror).map fun y => x ++ y := by
  cases mirror with
  | true =>
    simp only [duplicate, if_true, List.length_append, Option.some_bind, Option.map_some']
    rw [duplicateMirrorLoop_add]
  | false =>
    simp only [duplicate, Bool.false_eq_true, if_false, List.length_append]
    rw [duplicateLoop_add, duplicateLoop_append_left a b a.length 0 [] (by omega)]
    congr 1
    funext x
    rw [Nat.zero_add]
    have := duplicateLoop_append_right a b b.length 0 x
    rw [Nat.add_zero] at this
    rw [this, duplicateLoop_acc]

/-- C13: `duplicate` keeps the input order and distributes over concatenation: for
paths `a` and `b` of points with at least three coordinates and either value of
`mirror`, `duplicate(a ++ b, mirror) = duplicate(a, mirror) ++ duplicate(b, mirror)`;
a path holding the same point twice yields that point's block twice. -/
theorem duplicate_append {α : Type} [One α] [Neg α] (a b : List (List α)) (mirror : Bool)
    (ha : ∀ row ∈ a, 3 ≤ row.length) (hb : ∀ row ∈ b, 3 ≤ row.length) :
    (∃ la lb, duplicate a mirror = some la ∧ duplicate b mirror = some lb ∧
      duplicate (a ++ b) mirror = some (la ++ lb)) ∧
    (∀ p ∈ a, ∃ block, duplicate [p] false = some block ∧ block.length = 6 ∧
      duplicate [p, p] false = some (block ++ block)) := by
  constructor
  · cases mirror with
    | true =>
      refine ⟨duplicateMirrorLoop a.length [], duplicateMirrorLoop b.length [], rfl, rfl, ?_⟩
      rw [duplicate_append_core]
      rfl
    | false =>
      obtain ⟨la, hla, -⟩ := duplicate_false_core a ha
      obtain ⟨lb, hlb, -⟩ := duplicate_false_core b hb
      refine ⟨la, lb, hla, hlb, ?_⟩
      rw [duplicate_append_core, hla, hlb]
      rfl
  · intro p hp
    obtain ⟨block, hblock, hlen, -⟩ := duplicate_false_core [p]
      (fun row hrow => by
        rw [List.mem_singleton] at hrow
        rw [hrow]
        exact ha p hp)
    refine ⟨block, hblock, by simpa using hlen, ?_⟩
    have := duplicate_append_core [p] [p] false
    rw [hblock] at this
    exact this

/-- Witness for C13 on two one-point paths holding the same point. -/
theorem duplicate_append_witness :
    (∃ la lb, duplicate [[1, 2, (3 : Int)]] false = some la ∧
      duplicate [[1, 2, (3 : Int)]] false = some lb ∧
      duplicate ([[1, 2, (3 : Int)]] ++ [[1, 2, (3 : Int)]]) false = some (la ++ lb)) ∧
    (∀ p ∈ [[1, 2, (3 : Int)]], ∃ block, duplicate [p] false = some block ∧
      block.length = 6 ∧ duplicate [p, p] false = some (block ++ block)) :=
  duplicate_append [[1, 2, 3]] [[1, 2, 3]] false (by decide) (by decide)

/-! ## Lengths of the buffers of `main` -/

theorem relative_core_rows {α : Type} [Zero α] (path : List (List α)) (offset : Int)
    (h3 : ∀ row ∈ path, 3 ≤ row.length)
    (hov : ∀ i : Nat, i < path.length →
      INT_MIN ≤ (i : Int) + offset ∧ (i : Int) + offset ≤ INT_MAX) :
    ∃ r, relative path offset = some r ∧ r.length = path.length ∧
      ∀ row ∈ r, row.length = 3 := by
  obtain ⟨r, hr, hlen, hget⟩ := relative_core path offset h3 hov
  refine ⟨r, hr, hlen, ?_⟩
  intro row hrow
  obtain ⟨i, hi⟩ := List.mem_iff_getElem?.mp hrow
  have hilt : i < path.length := by
    rw [← hlen]
    exact (List.getElem?_eq_some_iff.mp hi).1
  obtain ⟨src, -, hsrc, h2⟩ := hget i hilt
  rw [hi] at h2
  cases h2
  simp only [List.length_take]
  omega

/-- C14, as stated, fails: on the 5-point path of `main` (4 segments) the positions
buffer has `30` floats, not `4 * 6 = 24`, and the direction buffer `10`, not
`4 * 2 = 8`. -/
theorem attribute_lengths_counterexample :
    ∃ positions directions,
      duplicate samplePath false = some positions ∧
      duplicate samplePath true = some directions ∧
      positions.length = 30 ∧ directions.length = 10 ∧
      positions.length ≠ (samplePath.length - 1) * 6 ∧
      directions.length ≠ (samplePath.length - 1) * 2 := by
  obtain ⟨positions, hp, hlen, -⟩ := duplicate_false_core samplePath (by decide)
  have hd : (duplicateMirrorLoop samplePath.length [] : List ℚ).length = 10 := by
    rw [duplicateMirrorLoop_length]
    rfl
  have hlen' : positions.length = 30 := hlen
  exact ⟨positions, _, hp, rfl, hlen', hd, by rw [hlen']; decide, by rw [hd]; decide⟩

/-- C14 (amended): for a path of `N ≥ 1` points (at least three coordinates each, `N`
within the range of the `int` loop counter), with `segments_count = N - 1`, the
positions, previous and next buffers made by `duplicate(..., false)` have length
`(segments_count + 1) * 6 = N * 6` and the direction buffer made by
`duplicate(path, true)` has length `(segments_count + 1) * 2 = N * 2`. -/
theorem attribute_lengths {α : Type} [Zero α] [One α] [Neg α] (path : List (List α))
    (hN : 1 ≤ path.length) (hmax : (path.length : Int) ≤ INT_MAX)
    (h3 : ∀ row ∈ path, 3 ≤ row.length) :
    ∃ previousPoints nextPoints positions previous next directions,
      relative path (-1) = some previousPoints ∧ relative path 1 = some nextPoints ∧
      duplicate path false = some positions ∧
      duplicate previousPoints false = some previous ∧
      duplicate nextPoints false = some next ∧
      duplicate path true = some directions ∧
      positions.length = (path.length - 1 + 1) * 6 ∧
      previous.length = (path.length - 1 + 1) * 6 ∧
      next.length = (path.length - 1 + 1) * 6 ∧
      directions.length = (path.length - 1 + 1) * 2 ∧
      (path.length - 1 + 1) * 6 = path.length * 6 ∧
      (path.length - 1 + 1) * 2 = path.length * 2 := by
  have hmax' : (path.length : Int) ≤ 2147483647 := hmax
  obtain ⟨pp, hpp, hpplen, hpprows⟩ := relative_core_rows path (-1) h3
    (fun i hi => by simp only [INT_MIN, INT_MAX]; omega)
  obtain ⟨np, hnp, hnplen, hnprows⟩ := relative_core_rows path 1 h3
    (fun i hi => by simp only [INT_MIN, INT_MAX]; omega)
  obtain ⟨positions, hpos, hposlen, -⟩ := duplicate_false_core path h3
  obtain ⟨previous, hprev, hprevlen, -⟩ := duplicate_false_core pp
    (fun row hrow => by rw [hpprows row hrow])
  obtain ⟨next, hnext, hnextlen, -⟩ := duplicate_false_core np
    (fun row hrow => by rw [hnprows row hrow])
  refine ⟨pp, np, positions, previous, next, duplicateMirrorLoop path.length [],
    hpp, hnp, hpos, hprev, hnext, rfl, ?_, ?_, ?_, ?_, ?_, ?_⟩
  · omega
  · omega
  · omega
  · rw [duplicateMirrorLoop_length]
    simp only [List.length_nil]
    omega
  · omega
  · omega

/-- Witness for C14 (amended) on the path of `main`. -/
theorem attribute_lengths_witness :
    ∃ previousPoints nextPoints positions previous next directions,
      relative samplePath (-1) = some previousPoints ∧
      relative samplePath 1 = some nextPoints ∧
      duplicate samplePath false = some positions ∧
      duplicate previousPoints false = some previous ∧
      duplicate nextPoints false = some next ∧
      duplicate samplePath true = some directions ∧
      positions.length = (samplePath.length - 1 + 1) * 6 ∧
      previous.length = (samplePath.length - 1 + 1) * 6 ∧
      next.length = (samplePath.length - 1 + 1) * 6 ∧
      directions.length = (samplePath.length - 1 + 1) * 2 ∧
      (samplePath.length - 1 + 1) * 6 = samplePath.length * 6 ∧
      (samplePath.length - 1 + 1) * 2 = samplePath.length * 2 :=
  attribute_lengths samplePath (by decide) (by decide) (by decide)

theorem toUint16_lt (v : Int) : toUint16 v < 65536 := by
  unfold toUint16
  omega

/-- C15, as stated, fails: for the 5-point path of `main` (4 segments) the index buffer
`createIndices(5)` has `30` entries, not `4 * 6 = 24`. -/
theorem index_buffer_length_counterexample :
    ∃ indices, createIndices samplePath.length = some indices ∧
      indices.length = 30 ∧ indices.length ≠ (samplePath.length - 1) * 6 := by
  obtain ⟨indices, hidx, hlen, -⟩ := createIndices_core samplePath.length (by decide)
  have hlen' : indices.length = 30 := hlen
  exact ⟨indices, hidx, hlen', by rw [hlen']; decide⟩

/-- C15 (amended): for a path of `N ≥ 1` points (with `N * 6` representable as an
`int`), with `segments_count = N - 1`, the index buffer `createIndices(N)` that `main`
builds is a sequence of unsigned 16-bit integers of length
`(segments_count + 1) * 6 = N * 6`. -/
theorem index_buffer_length {α : Type} (path : List (List α)) (hN : 1 ≤ path.length)
    (hfit : 6 * (path.length : Int) ≤ INT_MAX) :
    ∃ indices, createIndices path.length = some indices ∧
      indices.length = (path.length - 1 + 1) * 6 ∧
      (path.length - 1 + 1) * 6 = path.length * 6 ∧
      ∀ x ∈ indices, x < 65536 := by
  obtain ⟨indices, hidx, hlen, hget⟩ := createIndices_core path.length hfit
  refine ⟨indices, hidx, by omega, by omega, ?_⟩
  intro x hx
  obtain ⟨p, hp⟩ := List.mem_iff_getElem?.mp hx
  have hplt : p < 6 * path.length := by
    rw [← hlen]
    exact (List.getElem?_eq_some_iff.mp hp).1
  obtain ⟨q, d, hd, hpq⟩ : ∃ q d, d < 6 ∧ p = 6 * q + d :=
    ⟨p / 6, p % 6, Nat.mod_lt _ (by omega), by omega⟩
  subst hpq
  rw [hget q d (by omega) hd] at hp
  cases hp
  exact toUint16_lt _

/-- Witness for C15 (amended) on the path of `main`. -/
theorem index_buffer_length_witness :
    ∃ indices, createIndices samplePath.length = some indices ∧
      indices.length = (samplePath.length - 1 + 1) * 6 ∧
      (samplePath.length - 1 + 1) * 6 = samplePath.length * 6 ∧
      ∀ x ∈ indices, x < 65536 :=
  index_buffer_length samplePath (by decide) (by decide)

/-! ## Quads and segments -/

theorem segment_of_getElem? {α : Type} (l pt : List α) (s n : Nat) (hpt : pt.length = n)
    (h : ∀ c, c < n → l[s + c]? = pt[c]?) : (l.drop s).take n = pt := by
  apply List.ext_getElem?
  intro c
  by_cases hc : c < n
  · rw [List.getElem?_take_of_lt hc, List.getElem?_drop, h c hc]
  · rw [List.getElem?_take_eq_none (by omega), List.getElem?_eq_none (by omega)]

theorem duplicate_false_vertex {α : Type} [One α] [Neg α] (path : List (List α))
    (h3 : ∀ row ∈ path, row.length = 3) :
    ∃ buffer, duplicate path false = some buffer ∧ buffer.length = 6 * path.length ∧
      ∀ v pt, path[v / 2]? = some pt → (buffer.drop (3 * v)).take 3 = pt := by
  obtain ⟨buffer, hb, hlen, hget⟩ := duplicate_false_core path
    (fun row hrow => by rw [h3 row hrow])
  refine ⟨buffer, hb, hlen, fun v pt hpt => ?_⟩
  apply segment_of_getElem? _ _ _ _ (h3 _ (List.getElem?_mem hpt))
  intro c hc
  rw [show 3 * v + c = 6 * (v / 2) + (3 * (v % 2) + c) by omega,
    hget (v / 2) (3 * (v % 2) + c) _ hpt (by omega),
    show (3 * (v % 2) + c) % 3 = c by omega]

/-- C17: for a path of `N ≥ 2` three-component points with `2N < 65536` and `j ≤ N-2`,
the six indices of quad `j` of `createIndices(N)` fetch from the positions buffer
`duplicate(path, false)` the points `path[j], path[j], path[j+1], path[j+1], path[j],
path[j+1]` and from the direction buffer `duplicate(path, true)` the values
`-1, 1, -1, -1, 1, 1`. -/
theorem quad_covers_segment {α : Type} [One α] [Neg α] (path : List (List α)) (j : Nat)
    (hN : 2 ≤ path.length) (h16 : 2 * path.length < 65536)
    (h3 : ∀ row ∈ path, row.length = 3) (hj : j ≤ path.length - 2) :
    ∃ indices positions directions pj pj1,
      createIndices path.length = some indices ∧
      duplicate path false = some positions ∧
      duplicate path true = some directions ∧
      path[j]? = some pj ∧ path[j + 1]? = some pj1 ∧
      (indices.drop (6 * j)).take 6 =
        [2 * j, 2 * j + 1, 2 * j + 2, 2 * j + 2, 2 * j + 1, 2 * j + 3] ∧
      ((indices.drop (6 * j)).take 6).map (fun v => (positions.drop (3 * v)).take 3) =
        [pj, pj, pj1, pj1, pj, pj1] ∧
      ((indices.drop (6 * j)).take 6).map (fun v => directions[v]?) =
        [some (-1), some 1, some (-1), some (-1), some 1, some 1] := by
  obtain ⟨indices, hidx, -, hget⟩ := createIndices_small path.length h16
  obtain ⟨positions, hpos, -, hvertex⟩ := duplicate_false_vertex path h3
  obtain ⟨h0, h1, h2, h3', h4, h5⟩ := hget j (by omega)
  have hpj : path[j]? = some path[j] := List.getElem?_eq_getElem (by omega)
  have hpj1 : path[j + 1]? = some path[j + 1] := List.getElem?_eq_getElem (by omega)
  have hquad : (indices.drop (6 * j)).take 6 =
      [2 * j, 2 * j + 1, 2 * j + 2, 2 * j + 2, 2 * j + 1, 2 * j + 3] := by
    refine segment_of_getElem? indices _ (6 * j) 6 rfl ?_
    intro c hc
    interval_cases c
    · exact h0
    · exact h1
    · exact h2
    · exact h3'
    · exact h4
    · exact h5
  have hdir : ∀ p, p < 2 * path.length →
      (duplicateMirrorLoop path.length ([] : List α))[p]? =
        some (if p % 2 = 0 then (-1 : α) else 1) := by
    intro p hp
    rw [duplicateMirrorLoop_getElem?]
    simp [hp]
  refine ⟨indices, positions, duplicateMirrorLoop path.length [], path[j], path[j + 1],
    hidx, hpos, rfl, hpj, hpj1, hquad, ?_, ?_⟩
  · rw [hquad]
    simp only [List.map_cons, List.map_nil]
    rw [hvertex (2 * j) _ (by rw [show 2 * j / 2 = j by omega]; exact hpj),
      hvertex (2 * j + 1) _ (by rw [show (2 * j + 1) / 2 = j by omega]; exact hpj),
      hvertex (2 * j + 2) _ (by rw [show (2 * j + 2) / 2 = j + 1 by omega]; exact hpj1),
      hvertex (2 * j + 3) _ (by rw [show (2 * j + 3) / 2 = j + 1 by omega]; exact hpj1)]
  · rw [hquad]
    simp only [List.map_cons, List.map_nil]
    rw [hdir (2 * j) (by omega), hdir (2 * j + 1) (by omega), hdir (2 * j + 2) (by omega),
      hdir (2 * j + 3) (by omega)]
    rw [if_pos (by omega), if_neg (by omega), if_pos (by omega), if_neg (by omega)]

/-- Witness for C17 on quad `1` of a three-point path. -/
theorem quad_covers_segment_witness :
    ∃ indices positions directions pj pj1,
      createIndices [[1, 2, 3], [4, 5, 6], [7, 8, (9 : Int)]].length = some indices ∧
      duplicate [[1, 2, 3], [4, 5, 6], [7, 8, (9 : Int)]] false = some positions ∧
      duplicate [[1, 2, 3], [4, 5, 6], [7, 8, (9 : Int)]] true = some directions ∧
      [[1, 2, 3], [4, 5, 6], [7, 8, (9 : Int)]][1]? = some pj ∧
      [[1, 2, 3], [4, 5, 6], [7, 8, (9 : Int)]][1 + 1]? = some pj1 ∧
      (indices.drop (6 * 1)).take 6 =
        [2 * 1, 2 * 1 + 1, 2 * 1 + 2, 2 * 1 + 2, 2 * 1 + 1, 2 * 1 + 3] ∧
      ((indices.drop (6 * 1)).take 6).map (fun v => (positions.drop (3 * v)).take 3) =
        [pj, pj, pj1, pj1, pj, pj1] ∧
      ((indices.drop (6 * 1)).take 6).map (fun v => directions[v]?) =
        [some (-1), some 1, some (-1), some (-1), some 1, some 1] :=
  quad_covers_segment [[1, 2, 3], [4, 5, 6], [7, 8, 9]] 1 (by decide) (by decide)
    (by decide) (by decide)

/-! ## Composition and reversal of `relative` -/

theorem relative_exact {α : Type} [Zero α] (path : List (List α)) (offset : Int)
    (h3 : ∀ row ∈ path, row.length = 3)
    (hov : ∀ i : Nat, i < path.length →
      INT_MIN ≤ (i : Int) + offset ∧ (i : Int) + offset ≤ INT_MAX) :
    ∃ r, relative path offset = some r ∧ r.length = path.length ∧
      (∀ row ∈ r, row.length = 3) ∧
      ∀ i, i < path.length →
        r[i]? = path[(clamp ((i : Int) + offset) 0 ((path.length : Int) - 1)).toNat]? := by
  obtain ⟨r, hr, hlen, hget⟩ := relative_core path offset
    (fun row hrow => by rw [h3 row hrow]) hov
  have hexact : ∀ i, i < path.length →
      r[i]? = path[(clamp ((i : Int) + offset) 0 ((path.length : Int) - 1)).toNat]? := by
    intro i hi
    obtain ⟨src, h1, -, h2⟩ := hget i hi
    rw [h2, h1, take_three_of_length (h3 _ (List.getElem?_mem h1))]
  refine ⟨r, hr, hlen, ?_, hexact⟩
  intro row hrow
  obtain ⟨i, hi⟩ := List.mem_iff_getElem?.mp hrow
  have hilt : i < path.length := by
    rw [← hlen]
    exact (List.getElem?_eq_some_iff.mp hi).1
  rw [hexact i hilt] at hi
  exact h3 _ (List.getElem?_mem hi)

/-- C21: for a path of three-component points and offsets `a`, `b` that are both `≥ 0`
or both `≤ 0`, with no `int` overflow in `i + a`, `i + b` and `i + (a + b)` (`i < N`),
`relative(relative(path, a), b) = relative(path, a + b)`. -/
theorem relative_compose {α : Type} [Zero α] (path : List (List α)) (a b : Int)
    (h3 : ∀ row ∈ path, row.length = 3)
    (hsign : (0 ≤ a ∧ 0 ≤ b) ∨ (a ≤ 0 ∧ b ≤ 0))
    (hova : ∀ i : Nat, i < path.length →
      INT_MIN ≤ (i : Int) + a ∧ (i : Int) + a ≤ INT_MAX)
    (hovb : ∀ i : Nat, i < path.length →
      INT_MIN ≤ (i : Int) + b ∧ (i : Int) + b ≤ INT_MAX)
    (hovab : ∀ i : Nat, i < path.length →
      INT_MIN ≤ (i : Int) + (a + b) ∧ (i : Int) + (a + b) ≤ INT_MAX) :
    ∃ inner outer, relative path a = some inner ∧ relative inner b = some outer ∧
      relative path (a + b) = some outer := by
  obtain ⟨inner, hinner, hilen, hirows, higet⟩ := relative_exact path a h3 hova
  obtain ⟨outer, houter, holen, -, hoget⟩ := relative_exact inner b hirows
    (fun i hi => hovb i (by omega))
  obtain ⟨direct, hdirect, hdlen, -, hdget⟩ := relative_exact path (a + b) h3 hovab
  refine ⟨inner, outer, hinner, houter, ?_⟩
  rw [hdirect]
  congr 1
  apply List.ext_getElem?
  intro i
  by_cases hi : i < path.length
  · rw [hdget i hi, hoget i (by omega), hilen]
    have hmid : (clamp ((i : Int) + b) 0 ((path.length : Int) - 1)).toNat < path.length := by
      obtain ⟨h0, h1⟩ := clamp_bounds ((i : Int) + b) ((path.length : Int) - 1) (by omega)
      omega
    rw [higet _ hmid]
    congr 1
    unfold clamp
    rcases hsign with ⟨ha, hb⟩ | ⟨ha, hb⟩
    · split_ifs <;> omega
    · split_ifs <;> omega
  · rw [List.getElem?_eq_none (by omega), List.getElem?_eq_none (by omega)]

/-- Witness for C21 on a four-point path with offsets `1` and `2`. -/
theorem relative_compose_witness :
    ∃ inner outer,
      relative [[1, 2, 3], [4, 5, 6], [7, 8, 9], [10, 11, (12 : Int)]] 1 = some inner ∧
      relative inner 2 = some outer ∧
      relative [[1, 2, 3], [4, 5, 6], [7, 8, 9], [10, 11, (12 : Int)]] (1 + 2) = some outer :=
  relative_compose [[1, 2, 3], [4, 5, 6], [7, 8, 9], [10, 11, 12]] 1 2 (by decide)
    (Or.inl ⟨by decide, by decide⟩)
    (by
      intro i hi
      simp only [List.length_cons, List.length_nil, INT_MIN, INT_MAX] at *
      omega)
    (by
      intro i hi
      simp only [List.length_cons, List.length_nil, INT_MIN, INT_MAX] at *
      omega)
    (by
      intro i hi
      simp only [List.length_cons, List.length_nil, INT_MIN, INT_MAX] at *
      omega)

/-- C22, as stated, fails: on a two-point path with offset `INT_MAX`, `relative` of the
reversed path computes `1 + INT_MAX`, which is not representable, while `relative` of
the path with offset `-INT_MAX` returns a result. -/
theorem relative_reverse_counterexample :
    relative ([[1, 2, 3], [4, 5, (6 : Int)]].reverse) 2147483647 = none ∧
    (relative [[1, 2, 3], [4, 5, (6 : Int)]] (-2147483647)).map List.reverse =
      some [[1, 2, 3], [1, 2, 3]] := by
  decide

/-- C22 (amended): for a path of three-component points and an offset for which neither
`i + offset` nor `i - offset` (`i < N`) overflows `int`,
`relative(reverse(path), offset) = reverse(relative(path, -offset))`; with `offset = 1`
the next sequence of the reversed path is the reversed previous sequence of the path. -/
theorem relative_reverse {α : Type} [Zero α] (path : List (List α)) (offset : Int)
    (h3 : ∀ row ∈ path, row.length = 3)
    (hov : ∀ i : Nat, i < path.length →
      INT_MIN ≤ (i : Int) + offset ∧ (i : Int) + offset ≤ INT_MAX)
    (hovneg : ∀ i : Nat, i < path.length →
      INT_MIN ≤ (i : Int) + -offset ∧ (i : Int) + -offset ≤ INT_MAX) :
    ∃ ofReversed ofPath, relative path.reverse offset = some ofReversed ∧
      relative path (-offset) = some ofPath ∧ ofReversed = ofPath.reverse := by
  obtain ⟨r1, hr1, hlen1, -, hget1⟩ := relative_exact path.reverse offset
    (fun row hrow => h3 row (List.mem_reverse.mp hrow))
    (fun i hi => hov i (by simpa using hi))
  obtain ⟨r2, hr2, hlen2, -, hget2⟩ := relative_exact path (-offset) h3 hovneg
  simp only [List.length_reverse] at hlen1 hget1
  refine ⟨r1, r2, hr1, hr2, ?_⟩
  apply List.ext_getElem?
  intro i
  by_cases hi : i < path.length
  · obtain ⟨h0, h1⟩ := clamp_bounds ((i : Int) + offset) ((path.length : Int) - 1) (by omega)
    rw [hget1 i hi, List.getElem?_reverse (by omega), List.getElem?_reverse (by omega), hlen2,
      hget2 _ (by omega)]
    congr 1
    unfold clamp
    split_ifs <;> omega
  · rw [List.getElem?_eq_none (by omega),
      List.getElem?_eq_none (by rw [List.length_reverse]; omega)]

/-- Witness for C22 (amended) on a three-point path with offset `1`. -/
theorem relative_reverse_witness :
    ∃ ofReversed ofPath,
      relative [[1, 2, 3], [4, 5, 6], [7, 8, (9 : Int)]].reverse 1 = some ofReversed ∧
      relative [[1, 2, 3], [4, 5, 6], [7, 8, (9 : Int)]] (-1) = some ofPath ∧
      ofReversed = ofPath.reverse :=
  relative_reverse [[1, 2, 3], [4, 5, 6], [7, 8, 9]] 1 (by decide)
    (by
      intro i hi
      simp only [List.length_cons, List.length_nil, INT_MIN, INT_MAX] at *
      omega)
    (by
      intro i hi
      simp only [List.length_cons, List.length_nil, INT_MIN, INT_MAX] at *
      omega)

/-! ## Truncation in `createIndices` -/

/-- C23, as stated, fails: for `N = 357913942` the size `N * 6` that `createIndices`
computes in `int` is not representable, so no index buffer is produced. -/
theorem createIndices_truncates_counterexample :
    (0 : Int) ≤ 357913942 ∧ INT_MAX < 357913942 * 6 ∧ mulInt 357913942 6 = none ∧
    createIndices 357913942 = none := by
  decide

/-- C23 (amended): for every `N ≥ 0` with `N * 6` representable as an `int`,
`createIndices(N)` checks no overflow of the stored values and keeps each modulo
`65536`: the value at position `6j + k` is `(2j + d_k) mod 65536` with
`d = (0,1,2,2,1,3)`; the bound `pointCount * 2 < 65536` is tight: the last six values
of `createIndices(32768)` are `65534, 65535, 0, 0, 65535, 1`. -/
theorem createIndices_truncates (N : Nat) (hfit : 6 * (N : Int) ≤ INT_MAX) :
    (∃ l, createIndices N = some l ∧ l.length = 6 * N ∧
      ∀ j, j < N →
        l[6 * j]? = some ((2 * j + 0) % 65536) ∧ l[6 * j + 1]? = some ((2 * j + 1) % 65536) ∧
        l[6 * j + 2]? = some ((2 * j + 2) % 65536) ∧
        l[6 * j + 3]? = some ((2 * j + 2) % 65536) ∧
        l[6 * j + 4]? = some ((2 * j + 1) % 65536) ∧
        l[6 * j + 5]? = some ((2 * j + 3) % 65536)) ∧
    (∃ l, createIndices 32768 = some l ∧ l.length = 6 * 32768 ∧
      (l.drop (6 * 32767)).take 6 = [65534, 65535, 0, 0, 65535, 1]) := by
  constructor
  · obtain ⟨l, hl, hlen, hget⟩ := createIndices_core N hfit
    refine ⟨l, hl, hlen, fun j hj => ?_⟩
    have h0 := hget j 0 hj (by omega)
    have h1 := hget j 1 hj (by omega)
    have h2 := hget j 2 hj (by omega)
    have h3 := hget j 3 hj (by omega)
    have h4 := hget j 4 hj (by omega)
    have h5 := hget j 5 hj (by omega)
    simp only [quadOffset, toUint16, Nat.add_zero] at h0 h1 h2 h3 h4 h5
    refine ⟨?_, ?_, ?_, ?_, ?_, ?_⟩
    · rw [h0]; exact congrArg some (by omega)
    · rw [h1]; exact congrArg some (by omega)
    · rw [h2]; exact congrArg some (by omega)
    · rw [h3]; exact congrArg some (by omega)
    · rw [h4]; exact congrArg some (by omega)
    · rw [h5]; exact congrArg some (by omega)
  · obtain ⟨l, hl, hlen, hget⟩ := createIndices_core 32768 (by decide)
    refine ⟨l, hl, hlen, ?_⟩
    refine segment_of_getElem? l _ (6 * 32767) 6 rfl ?_
    intro c hc
    rw [hget 32767 c (by omega) hc]
    interval_cases c <;> rfl

/-- Witness for C23 (amended) at `N = 3`. -/
theorem createIndices_truncates_witness :
    (∃ l, createIndices (3 : Nat) = some l ∧ l.length = 6 * 3 ∧
      ∀ j, j < 3 →
        l[6 * j]? = some ((2 * j + 0) % 65536) ∧ l[6 * j + 1]? = some ((2 * j + 1) % 65536) ∧
        l[6 * j + 2]? = some ((2 * j + 2) % 65536) ∧
        l[6 * j + 3]? = some ((2 * j + 2) % 65536) ∧
        l[6 * j + 4]? = some ((2 * j + 1) % 65536) ∧
        l[6 * j + 5]? = some ((2 * j + 3) % 65536)) ∧
    (∃ l, createIndices 32768 = some l ∧ l.length = 6 * 32768 ∧
      (l.drop (6 * 32767)).take 6 = [65534, 65535, 0, 0, 65535, 1]) :=
  createIndices_truncates 3 (by decide)

end MathsUtils

namespace Harness

/-! ## The Escape key -/

/-- C24 on the code: `initializeWindow` registers `quitCallback` and then replaces it by
`reloadShaders`, so a press of Escape delivered to the window it returns leaves the
should-close flag off, although `quitCallback` itself would set it. -/
theorem escape_after_initializeWindow :
    (initializeWindow true).map (fun window => window.keyCallback) =
      some (some KeyCallback.reload) ∧
    (initializeWindow true).map
      (fun window => (keyEvent window GLFW_KEY_ESCAPE GLFW_PRESS).shouldClose) = some false ∧
    (keyEvent (glfwSetKeyCallback createdWindow KeyCallback.quit)
      GLFW_KEY_ESCAPE GLFW_PRESS).shouldClose = true := by
  decide

end Harness
